import Mathlib

/-!
Verification development for the GMM fitting core of the lab-website repository
(file `js/gmm-demo.js`, the `GMMDemo` object).

The JavaScript code computes with IEEE double-precision numbers.  We embed it
shallowly over `JSNum`: an exact real number (`num x`), positive infinity
(`inf`), negative infinity (`ninf`), or `nan`.  Arithmetic on finite values is
exact real arithmetic (rounding is not modelled); the special values propagate
as in IEEE-754 / JavaScript: `nan` absorbs every operation, `0 * inf = nan`,
`inf + ninf = nan`, `x / 0` is `nan` for `x = 0` and a signed infinity
otherwise (signed zeros are not modelled; they are irrelevant to the code
paths verified here), `Math.sqrt` of a negative number is `nan`,
`Math.log 0 = ninf`, `Math.log` of a negative number is `nan`,
`Math.exp ninf = num 0`.  Comparisons involving `nan` are `false`, as in
JavaScript.  Out-of-bounds array reads yield `undefined` in JavaScript, which
behaves as `nan` in arithmetic and satisfies `isNaN`; we model such reads
with the default value `nan`.
-/

/-- Model of a JavaScript number: an exact real, an infinity, or NaN. -/
inductive JSNum where
  | nan : JSNum
  | inf : JSNum
  | ninf : JSNum
  | num : ℝ → JSNum

open JSNum

/-- JavaScript addition. -/
noncomputable def jadd : JSNum → JSNum → JSNum
  | .nan, _ => .nan
  | _, .nan => .nan
  | .num x, .num y => .num (x + y)
  | .inf, .ninf => .nan
  | .ninf, .inf => .nan
  | .inf, _ => .inf
  | _, .inf => .inf
  | .ninf, _ => .ninf
  | _, .ninf => .ninf

/-- JavaScript unary minus. -/
noncomputable def jneg : JSNum → JSNum
  | .nan => .nan
  | .inf => .ninf
  | .ninf => .inf
  | .num x => .num (-x)

/-- JavaScript subtraction. -/
noncomputable def jsub : JSNum → JSNum → JSNum
  | .nan, _ => .nan
  | _, .nan => .nan
  | .num x, .num y => .num (x - y)
  | .inf, .inf => .nan
  | .ninf, .ninf => .nan
  | .inf, _ => .inf
  | _, .inf => .ninf
  | .ninf, _ => .ninf
  | _, .ninf => .inf

/-- JavaScript multiplication (`0 * ±Infinity = NaN`). -/
noncomputable def jmul : JSNum → JSNum → JSNum
  | .nan, _ => .nan
  | _, .nan => .nan
  | .num x, .num y => .num (x * y)
  | .inf, .inf => .inf
  | .inf, .ninf => .ninf
  | .ninf, .inf => .ninf
  | .ninf, .ninf => .inf
  | .inf, .num y => if y = 0 then .nan else if 0 < y then .inf else .ninf
  | .num x, .inf => if x = 0 then .nan else if 0 < x then .inf else .ninf
  | .ninf, .num y => if y = 0 then .nan else if 0 < y then .ninf else .inf
  | .num x, .ninf => if x = 0 then .nan else if 0 < x then .ninf else .inf

/-- JavaScript division (`0/0 = NaN`, `x/0 = ±Infinity` for finite `x ≠ 0`). -/
noncomputable def jdiv : JSNum → JSNum → JSNum
  | .nan, _ => .nan
  | _, .nan => .nan
  | .num x, .num y =>
      if y = 0 then (if x = 0 then .nan else if 0 < x then .inf else .ninf)
      else .num (x / y)
  | .inf, .inf => .nan
  | .inf, .ninf => .nan
  | .ninf, .inf => .nan
  | .ninf, .ninf => .nan
  | .inf, .num y => if 0 ≤ y then .inf else .ninf
  | .ninf, .num y => if 0 ≤ y then .ninf else .inf
  | .num _, .inf => .num 0
  | .num _, .ninf => .num 0

/-- JavaScript `Math.sqrt`. -/
noncomputable def jsqrt : JSNum → JSNum
  | .nan => .nan
  | .inf => .inf
  | .ninf => .nan
  | .num x => if x < 0 then .nan else .num (Real.sqrt x)

/-- JavaScript `Math.exp`. -/
noncomputable def jexp : JSNum → JSNum
  | .nan => .nan
  | .inf => .inf
  | .ninf => .num 0
  | .num x => .num (Real.exp x)

/-- JavaScript `Math.log`. -/
noncomputable def jlog : JSNum → JSNum
  | .nan => .nan
  | .inf => .inf
  | .ninf => .nan
  | .num x => if x < 0 then .nan else if x = 0 then .ninf else .num (Real.log x)

/-- JavaScript `Math.abs`. -/
noncomputable def jabs : JSNum → JSNum
  | .nan => .nan
  | .inf => .inf
  | .ninf => .inf
  | .num x => .num |x|

/-- JavaScript `<` comparison (`false` whenever an operand is NaN). -/
noncomputable def jltb : JSNum → JSNum → Bool
  | .nan, _ => false
  | _, .nan => false
  | .num x, .num y => decide (x < y)
  | .ninf, .ninf => false
  | .ninf, _ => true
  | .num _, .inf => true
  | .inf, _ => false
  | .num _, .ninf => false

/-- JavaScript `>=` comparison (`false` whenever an operand is NaN). -/
noncomputable def jgeb : JSNum → JSNum → Bool
  | .nan, _ => false
  | _, .nan => false
  | .num x, .num y => decide (y ≤ x)
  | .inf, _ => true
  | .ninf, .ninf => true
  | .ninf, _ => false
  | .num _, .ninf => true
  | .num _, .inf => false

/-- JavaScript strict equality `===` on numbers (`NaN === NaN` is `false`). -/
noncomputable def jeqb : JSNum → JSNum → Bool
  | .nan, _ => false
  | _, .nan => false
  | .num x, .num y => decide (x = y)
  | .inf, .inf => true
  | .ninf, .ninf => true
  | .inf, _ => false
  | .ninf, _ => false
  | .num _, _ => false

/-- JavaScript `isNaN`. -/
def jisNaN : JSNum → Bool
  | .nan => true
  | _ => false

/-- JavaScript `Math.max` on two arguments (NaN if either argument is NaN). -/
noncomputable def jmax : JSNum → JSNum → JSNum
  | .nan, _ => .nan
  | _, .nan => .nan
  | a, b => if jltb a b then b else a

/-- `Math.max(...l)`: fold of `jmax` starting from `-Infinity` (the value of
`Math.max()` on no arguments). -/
noncomputable def listMax (l : List JSNum) : JSNum :=
  l.foldl jmax .ninf

/-- Sum of a list of JavaScript numbers, as computed by
`l.reduce((sum, v) => sum + v, 0)`. -/
noncomputable def jsum (l : List JSNum) : JSNum :=
  l.foldl jadd (.num 0)

/-- `Math.pow(a, 2)`, which agrees with `a * a` for every JavaScript number. -/
noncomputable def jsq (a : JSNum) : JSNum := jmul a a

/-- `Array.prototype.indexOf` with strict equality; `-1` when absent. -/
noncomputable def jsIndexOf (l : List JSNum) (x : JSNum) : Int :=
  match l with
  | [] => -1
  | a :: rest => if jeqb a x then 0 else
      match jsIndexOf rest x with
      | .negSucc _ => -1
      | .ofNat i => Int.ofNat (i + 1)

/-- Array read at a possibly negative index: out-of-bounds reads produce
`undefined`, which we model as `nan` (its behaviour in arithmetic and under
`isNaN`). -/
noncomputable def jget (l : List JSNum) (i : Int) : JSNum :=
  if h : 0 ≤ i ∧ i.toNat < l.length then l.get ⟨i.toNat, h.2⟩ else .nan

/-- Total order used to model `Array.prototype.sort((a, b) => a - b)`.  On
finite values it is the ascending order of the reals, which is exactly what
the JavaScript comparator produces on the numeric datasets the demo sorts;
the placement of `inf`, `ninf` and `nan` merely makes the order total. -/
noncomputable def jsleb : JSNum → JSNum → Bool
  | .ninf, _ => true
  | _, .ninf => false
  | .num x, .num y => decide (x ≤ y)
  | .num _, _ => true
  | .inf, .num _ => false
  | .inf, .inf => true
  | .inf, .nan => true
  | .nan, .nan => true
  | .nan, _ => false

/-- The sorting relation as a `Prop`. -/
def jsle (a b : JSNum) : Prop := jsleb a b = true

noncomputable instance : DecidableRel jsle := fun a b => instDecidableEqBool (jsleb a b) true

instance : IsTotal JSNum jsle := by
  constructor
  intro a b
  cases a <;> cases b <;> simp [jsle, jsleb]
  exact le_total _ _

instance : IsTrans JSNum jsle := by
  constructor
  intro a b c
  cases a <;> cases b <;> cases c <;> simp [jsle, jsleb]
  exact fun h1 h2 => le_trans h1 h2

/-- `[...data].sort((a, b) => a - b)`: the ascending sort of the data. -/
noncomputable def jsSort (l : List JSNum) : List JSNum := List.insertionSort jsle l

/-- A fitted mixture model, as returned by `simpleGMM` / `simpleMeanStd`.
The source marks the small-sample fallback with an `isSimple: true` field
(the specification calls this flag `isDegenerate`); models from the EM path
carry no such field, modelled as `isSimple = false`. -/
structure MixtureModel where
  nComponents : Nat
  means : List JSNum
  variances : List JSNum
  weights : List JSNum
  isSimple : Bool

/-- A mixture model extended with the fields added by the selection loop of
`fitGMM`: `{...model, bic, passesWeightConstraint}`. -/
structure ScoredModel extends MixtureModel where
  bic : JSNum
  passesWeightConstraint : Bool

/-- `gaussianPDF(x, mean, stdDev)`:
`(1/(stdDev*sqrt(2*PI))) * exp(-pow(x-mean,2)/(2*pow(stdDev,2)))`. -/
noncomputable def gaussianPDF (x mean stdDev : JSNum) : JSNum :=
  jmul (jdiv (.num 1) (jmul stdDev (jsqrt (jmul (.num 2) (.num Real.pi)))))
       (jexp (jdiv (jneg (jsq (jsub x mean))) (jmul (.num 2) (jsq stdDev))))

/-- `simpleMeanStd(data)`: the small-sample fallback.  Mean is the plain
average; variance is Bessel-corrected when `n >= 3` and stays `NaN`
otherwise. -/
noncomputable def simpleMeanStd (data : List JSNum) : MixtureModel :=
  let n := data.length
  let mean := jdiv (jsum data) (.num (n : ℝ))
  let variance : JSNum :=
    if 3 ≤ n then
      jdiv (data.foldl (fun sum v => jadd sum (jsq (jsub v mean))) (.num 0))
           (.num ((n : ℝ) - 1))
    else .nan
  ⟨1, [mean], [variance], [.num 1], true⟩

/-- `initializeMeans(data, k)`: sort ascending, then seed the means at the
median (k = 1), the 1/3 and 2/3 order statistics (k = 2), or at positions
`floor((i+1)*n/(k+1))` otherwise.  All indices are computed with `Math.floor`
on non-negative integers, i.e. natural-number division. -/
noncomputable def initializeMeans (data : List JSNum) (k : Nat) : List JSNum :=
  let sortedData := jsSort data
  if k = 1 then
    [sortedData.getD (sortedData.length / 2) .nan]
  else if k = 2 then
    [sortedData.getD (sortedData.length / 3) .nan,
     sortedData.getD (2 * sortedData.length / 3) .nan]
  else
    (List.range k).map (fun i => sortedData.getD ((i + 1) * sortedData.length / (k + 1)) .nan)

/-- `calculateLogLikelihood(data, means, variances, weights)`: sum over the
samples of `log(sum over j of weights[j] * gaussianPDF(x, means[j],
sqrt(variances[j])) + 1e-10)`, accumulated left-to-right as in the source. -/
noncomputable def calculateLogLikelihood (data means variances weights : List JSNum) : JSNum :=
  data.foldl (fun logLikelihood x =>
    jadd logLikelihood (jlog (jadd
      ((List.range means.length).foldl (fun sum j =>
          jadd sum (jmul (weights.getD j .nan)
            (gaussianPDF x (means.getD j .nan) (jsqrt (variances.getD j .nan)))))
        (.num 0))
      (.num 1e-10)))) (.num 0)

/-- `numParams = k + k + (k - 1)` from `calculateBIC` (`k` means, `k`
variances, `k - 1` independent weights). -/
def numParams (k : Nat) : Int := (k : Int) + k + ((k : Int) - 1)

/-- `calculateBIC(data, model) = -2 * logLikelihood + numParams * log(n)`. -/
noncomputable def calculateBIC (data : List JSNum) (model : MixtureModel) : JSNum :=
  jadd (jmul (.num (-2)) (calculateLogLikelihood data model.means model.variances model.weights))
       (jmul (.num (numParams model.nComponents : ℝ)) (jlog (.num (data.length : ℝ))))

/-- One row of unnormalized responsibilities in the E-step of `simpleGMM`:
`weights[j] * gaussianPDF(data[i], means[j], sqrt(variances[j]))` for
`j = 0..k-1`. -/
noncomputable def eRow (k : Nat) (means variances weights : List JSNum) (x : JSNum) : List JSNum :=
  (List.range k).map (fun j =>
    jmul (weights.getD j .nan)
      (gaussianPDF x (means.getD j .nan) (jsqrt (variances.getD j .nan))))

/-- The E-step: each row is normalized by its sum plus the stabilizing
epsilon `1e-10` (the running `sum` in the source equals the fold of the
pushed row entries). -/
noncomputable def eStep (data : List JSNum) (k : Nat) (means variances weights : List JSNum) :
    List (List JSNum) :=
  data.map (fun x =>
    let resp := eRow k means variances weights x
    let sum := jsum resp
    resp.map (fun r => jdiv r (jadd sum (.num 1e-10))))

/-- `nk` of the M-step: `responsibilities.reduce((sum, r) => sum + r[j], 0)`. -/
noncomputable def mStepNk (resp : List (List JSNum)) (j : Nat) : JSNum :=
  resp.foldl (fun sum r => jadd sum (r.getD j .nan)) (.num 0)

/-- Updated weights of the M-step: `weights[j] = nk / n`. -/
noncomputable def mStepWeights (n : Nat) (k : Nat) (resp : List (List JSNum)) : List JSNum :=
  (List.range k).map (fun j => jdiv (mStepNk resp j) (.num (n : ℝ)))

/-- Updated means of the M-step:
`means[j] = (sum over i of responsibilities[i][j] * data[i]) / nk`. -/
noncomputable def mStepMeans (data : List JSNum) (k : Nat) (resp : List (List JSNum)) :
    List JSNum :=
  (List.range k).map (fun j =>
    jdiv ((resp.zip data).foldl
            (fun meanSum p => jadd meanSum (jmul (p.1.getD j .nan) p.2)) (.num 0))
         (mStepNk resp j))

/-- Updated variances of the M-step, computed with the already updated means
(the source mutates `means[j]` before running the variance loop):
`variances[j] = (sum over i of responsibilities[i][j] * diff * diff) / nk`
with `diff = data[i] - means[j]`. -/
noncomputable def mStepVariances (data : List JSNum) (k : Nat) (resp : List (List JSNum))
    (newMeans : List JSNum) : List JSNum :=
  (List.range k).map (fun j =>
    jdiv ((resp.zip data).foldl
            (fun varSum p =>
              jadd varSum (jmul (jmul (p.1.getD j .nan) (jsub p.2 (newMeans.getD j .nan)))
                                (jsub p.2 (newMeans.getD j .nan)))) (.num 0))
         (mStepNk resp j))

/-- State of the EM loop of `simpleGMM`: current parameters, the previous
log-likelihood, and whether the convergence `break` has fired. -/
structure EMState where
  means : List JSNum
  variances : List JSNum
  weights : List JSNum
  prevLL : JSNum
  done : Bool

/-- One iteration of the EM `for` loop of `simpleGMM`: E-step, M-step, then
the convergence check `abs(logLikelihood - prevLogLikelihood) < 0.001`
(which in the source breaks out of the loop after the parameter update). -/
noncomputable def emStep (data : List JSNum) (k : Nat) (st : EMState) : EMState :=
  if st.done then st
  else
    let resp := eStep data k st.means st.variances st.weights
    let newMeans := mStepMeans data k resp
    let newVariances := mStepVariances data k resp newMeans
    let newWeights := mStepWeights data.length k resp
    let logLikelihood := calculateLogLikelihood data newMeans newVariances newWeights
    if jltb (jabs (jsub logLikelihood st.prevLL)) (.num 0.001) then
      ⟨newMeans, newVariances, newWeights, st.prevLL, true⟩
    else
      ⟨newMeans, newVariances, newWeights, logLikelihood, false⟩

/-- The initial EM state of `simpleGMM`: seeded means, all variances `1.0`,
all weights `1.0 / k`, `prevLogLikelihood = -Infinity`. -/
noncomputable def emInit (data : List JSNum) (k : Nat) : EMState :=
  ⟨initializeMeans data k, List.replicate k (.num 1),
   List.replicate k (jdiv (.num 1) (.num (k : ℝ))), .ninf, false⟩

/-- `simpleGMM(data, k)`: run at most 100 EM iterations (the `done` flag
freezes the state once the convergence break has fired, so iterating the
step exactly 100 times is the loop `for (let iter = 0; iter < 100; iter++)`
with its early `break`). -/
noncomputable def simpleGMM (data : List JSNum) (k : Nat) : MixtureModel :=
  let finalState := (emStep data k)^[100] (emInit data k)
  ⟨k, finalState.means, finalState.variances, finalState.weights, false⟩

/-- One candidate of the selection loop of `fitGMM`:
`{...simpleGMM(data, k), bic, passesWeightConstraint}` where
`passesWeightConstraint = Math.max(...weights) >= 0.5`. -/
noncomputable def scoreModel (data : List JSNum) (k : Nat) : ScoredModel :=
  let model := simpleGMM data k
  ⟨model, calculateBIC data model, jgeb (listMax model.weights) (.num 0.5)⟩

/-- The `models` array built by the `for (let k = 1; k <= 3; k++)` loop. -/
noncomputable def scoredModels (data : List JSNum) : List ScoredModel :=
  [scoreModel data 1, scoreModel data 2, scoreModel data 3]

/-- The reducer `(best, m) => m.bic < best.bic ? m : best` of the model
selection. -/
noncomputable def bicStep (best m : ScoredModel) : ScoredModel :=
  if jltb m.bic best.bic then m else best

/-- `validModels.reduce((best, m) => m.bic < best.bic ? m : best)`: with no
initial value, the first element seeds the fold.  The `[]` case is
unreachable in the selector, which guards the call with
`validModels.length > 0` (the `fitGMME` embedding below models the
`TypeError` that `reduce` would otherwise throw). -/
noncomputable def reduceBest : List ScoredModel → ScoredModel
  | [] => ⟨⟨0, [], [], [], false⟩, .nan, false⟩
  | v :: vs => vs.foldl bicStep v

/-- The model selection of `fitGMM` (the identical code is duplicated
verbatim inside `plotTimeSeries` for the cumulative fits): filter to the
models passing the weight constraint; if any survive
(`validModels.length > 0`), reduce with
`(best, m) => m.bic < best.bic ? m : best`; otherwise fall back to
`models[0]`, the 1-component model. -/
noncomputable def selectScored (data : List JSNum) : ScoredModel :=
  let models := scoredModels data
  let validModels := models.filter (fun m => m.passesWeightConstraint)
  if 0 < validModels.length then reduceBest validModels else scoreModel data 1

/-- `fitGMM`'s fitting pipeline: the small-sample fallback for
`data.length < 5`, the scored selection otherwise. -/
noncomputable def fitGMM (data : List JSNum) : MixtureModel ⊕ ScoredModel :=
  if data.length < 5 then Sum.inl (simpleMeanStd data) else Sum.inr (selectScored data)

/-- `Array.prototype.reduce` with no initial value: throws a `TypeError` on
an empty array, otherwise folds from the first element. -/
def jsReduceNoInit {α : Type} (f : α → α → α) : List α → Except String α
  | [] => Except.error "Reduce of empty array with no initial value"
  | x :: xs => Except.ok (xs.foldl f x)

/-- The fitting pipeline with its one genuinely fallible operation made
explicit: the `validModels.reduce(...)` call has no initial value and would
throw on an empty array; the source guards it with
`validModels.length > 0`. -/
noncomputable def fitGMME (data : List JSNum) : Except String (MixtureModel ⊕ ScoredModel) :=
  if data.length < 5 then Except.ok (Sum.inl (simpleMeanStd data))
  else
    let models := scoredModels data
    let validModels := models.filter (fun m => m.passesWeightConstraint)
    if 0 < validModels.length then
      (jsReduceNoInit bicStep validModels).map Sum.inr
    else Except.ok (Sum.inr (scoreModel data 1))

/-- The `(mean, variance)` pair computed by `plotTimeSeries` for index
`i >= 2`: the plain mean and Bessel-corrected variance of the prefix when it
has at most 4 points, otherwise the dominant component (index of the maximum
weight, via `indexOf`) of the model chosen by the selector on the prefix. -/
noncomputable def cumulMV (data : List JSNum) (i : Nat) : JSNum × JSNum :=
  let cumulativeData := data.take (i + 1)
  if cumulativeData.length ≤ 4 then
    let mean := jdiv (jsum cumulativeData) (.num (cumulativeData.length : ℝ))
    let sumSquares :=
      cumulativeData.foldl (fun sum v => jadd sum (jsq (jsub v mean))) (.num 0)
    (mean, jdiv sumSquares (.num ((cumulativeData.length : ℝ) - 1)))
  else
    let cumulativeModel := selectScored cumulativeData
    let dominantIdx :=
      jsIndexOf cumulativeModel.weights (listMax cumulativeModel.weights)
    (jget cumulativeModel.means dominantIdx, jget cumulativeModel.variances dominantIdx)

/-- Loop body of the cumulative-confidence computation in `plotTimeSeries`:
for each index the source pushes exactly one entry (a value or `null`) onto
each of `upperCI`, `lowerCI` and `meanLine`. -/
noncomputable def cumulStep (data : List JSNum)
    (acc : List (Option JSNum) × List (Option JSNum) × List (Option JSNum)) (i : Nat) :
    List (Option JSNum) × List (Option JSNum) × List (Option JSNum) :=
  if i < 2 then (acc.1 ++ [none], acc.2.1 ++ [none], acc.2.2 ++ [none])
  else
    let mv := cumulMV data i
    if jisNaN mv.2 = false then
      (acc.1 ++ [some (jadd mv.1 (jmul (.num 1.96) (jsqrt mv.2)))],
       acc.2.1 ++ [some (jsub mv.1 (jmul (.num 1.96) (jsqrt mv.2)))],
       acc.2.2 ++ [some mv.1])
    else (acc.1 ++ [none], acc.2.1 ++ [none], acc.2.2 ++ [none])

/-- The `(upperCI, lowerCI, meanLine)` arrays built by `plotTimeSeries`. -/
noncomputable def cumulLists (data : List JSNum) :
    List (Option JSNum) × List (Option JSNum) × List (Option JSNum) :=
  (List.range data.length).foldl (cumulStep data) ([], [], [])

/-! Basic computation lemmas for the JavaScript-number operations. -/

@[simp] theorem jadd_nan_left (x : JSNum) : jadd .nan x = .nan := by cases x <;> rfl

@[simp] theorem jadd_nan_right (x : JSNum) : jadd x .nan = .nan := by cases x <;> rfl

@[simp] theorem jadd_num (a b : ℝ) : jadd (.num a) (.num b) = .num (a + b) := rfl

@[simp] theorem jadd_zero_left (x : JSNum) : jadd (.num 0) x = x := by
  cases x <;> simp [jadd]

@[simp] theorem jsub_nan_left (x : JSNum) : jsub .nan x = .nan := by cases x <;> rfl

@[simp] theorem jsub_nan_right (x : JSNum) : jsub x .nan = .nan := by cases x <;> rfl

@[simp] theorem jsub_num (a b : ℝ) : jsub (.num a) (.num b) = .num (a - b) := rfl

@[simp] theorem jsub_num_ninf (a : ℝ) : jsub (.num a) .ninf = .inf := rfl

@[simp] theorem jsub_nan_ninf : jsub .nan .ninf = .nan := rfl

@[simp] theorem jneg_num (a : ℝ) : jneg (.num a) = .num (-a) := rfl

@[simp] theorem jmul_nan_left (x : JSNum) : jmul .nan x = .nan := by cases x <;> rfl

@[simp] theorem jmul_nan_right (x : JSNum) : jmul x .nan = .nan := by cases x <;> rfl

@[simp] theorem jmul_num (a b : ℝ) : jmul (.num a) (.num b) = .num (a * b) := rfl

@[simp] theorem jmul_inf_nan : jmul .inf .nan = .nan := rfl

theorem jmul_inf_num_zero : jmul .inf (.num 0) = .nan := by simp [jmul]

@[simp] theorem jsq_num (a : ℝ) : jsq (.num a) = .num (a * a) := rfl

@[simp] theorem jsq_nan : jsq .nan = .nan := rfl

@[simp] theorem jdiv_nan_left (x : JSNum) : jdiv .nan x = .nan := by cases x <;> rfl

@[simp] theorem jdiv_nan_right (x : JSNum) : jdiv x .nan = .nan := by cases x <;> rfl

theorem jdiv_num_of_ne (a : ℝ) {b : ℝ} (hb : b ≠ 0) :
    jdiv (.num a) (.num b) = .num (a / b) := by simp [jdiv, hb]

theorem jdiv_zero_zero : jdiv (.num 0) (.num 0) = .nan := by simp [jdiv]

theorem jdiv_pos_zero {a : ℝ} (ha : 0 < a) : jdiv (.num a) (.num 0) = .inf := by
  simp [jdiv, ha, ne_of_gt ha]

@[simp] theorem jsqrt_nan : jsqrt .nan = .nan := rfl

theorem jsqrt_num_of_nonneg {a : ℝ} (ha : 0 ≤ a) : jsqrt (.num a) = .num (Real.sqrt a) := by
  simp [jsqrt, not_lt.2 ha]

@[simp] theorem jexp_nan : jexp .nan = .nan := rfl

@[simp] theorem jexp_num (a : ℝ) : jexp (.num a) = .num (Real.exp a) := rfl

@[simp] theorem jexp_ninf : jexp .ninf = .num 0 := rfl

@[simp] theorem jlog_nan : jlog .nan = .nan := rfl

theorem jlog_num_of_pos {a : ℝ} (ha : 0 < a) : jlog (.num a) = .num (Real.log a) := by
  simp [jlog, not_lt.2 ha.le, ne_of_gt ha]

@[simp] theorem jabs_nan : jabs .nan = .nan := rfl

@[simp] theorem jabs_num (a : ℝ) : jabs (.num a) = .num |a| := rfl

@[simp] theorem jltb_nan_left (x : JSNum) : jltb .nan x = false := by cases x <;> rfl

@[simp] theorem jltb_nan_right (x : JSNum) : jltb x .nan = false := by cases x <;> rfl

@[simp] theorem jltb_num (a b : ℝ) : jltb (.num a) (.num b) = decide (a < b) := rfl

@[simp] theorem jgeb_nan_left (x : JSNum) : jgeb .nan x = false := by cases x <;> rfl

@[simp] theorem jgeb_nan_right (x : JSNum) : jgeb x .nan = false := by cases x <;> rfl

@[simp] theorem jgeb_num (a b : ℝ) : jgeb (.num a) (.num b) = decide (b ≤ a) := rfl

@[simp] theorem jisNaN_nan : jisNaN .nan = true := rfl

@[simp] theorem jisNaN_num (a : ℝ) : jisNaN (.num a) = false := rfl

@[simp] theorem jisNaN_inf : jisNaN .inf = false := rfl

@[simp] theorem jisNaN_ninf : jisNaN .ninf = false := rfl

theorem jisNaN_eq_true_iff {x : JSNum} : jisNaN x = true ↔ x = .nan := by
  cases x <;> simp [jisNaN]

theorem jadd_assoc (a b c : JSNum) : jadd (jadd a b) c = jadd a (jadd b c) := by
  cases a <;> cases b <;> cases c <;> simp [jadd, add_assoc]

theorem jltb_irrefl (a : JSNum) : jltb a a = false := by
  cases a <;> simp [jltb]

theorem jltb_asymm {a b : JSNum} (h : jltb a b = true) : jltb b a = false := by
  cases a <;> cases b <;> simp_all [jltb]
  linarith

theorem jltb_trans {a b c : JSNum} (h1 : jltb a b = true) (h2 : jltb b c = true) :
    jltb a c = true := by
  cases a <;> cases b <;> cases c <;> simp_all [jltb]
  linarith

theorem jltb_connex {a b : JSNum} (ha : jisNaN a = false) (hb : jisNaN b = false)
    (h1 : jltb a b = false) (h2 : jltb b a = false) : a = b := by
  cases a <;> cases b <;> simp_all [jltb, jisNaN]
  linarith

@[simp] theorem jadd_zero_right (x : JSNum) : jadd x (.num 0) = x := by
  cases x <;> simp [jadd]

theorem foldl_jadd_eq (l : List JSNum) (a : JSNum) : l.foldl jadd a = jadd a (jsum l) := by
  induction l generalizing a with
  | nil => simp [jsum]
  | cons x xs ih =>
      show (x :: xs).foldl jadd a = jadd a (jsum (x :: xs))
      have hx : jsum (x :: xs) = jadd x (jsum xs) := by
        show (x :: xs).foldl jadd (.num 0) = jadd x (jsum xs)
        simp only [List.foldl_cons, jadd_zero_left]
        exact ih x
      simp only [List.foldl_cons, hx, ih (jadd a x), jadd_assoc]

theorem jsum_cons (x : JSNum) (l : List JSNum) : jsum (x :: l) = jadd x (jsum l) := by
  show (x :: l).foldl jadd (.num 0) = jadd x (jsum l)
  simp only [List.foldl_cons, jadd_zero_left]
  exact foldl_jadd_eq l x

@[simp] theorem jsum_nil : jsum [] = .num 0 := rfl

theorem jsum_map_num {α : Type} (f : α → ℝ) (l : List α) :
    jsum (l.map (fun x => JSNum.num (f x))) = .num ((l.map f).sum) := by
  induction l with
  | nil => simp
  | cons x xs ih => simp [jsum_cons, ih]

theorem jsum_replicate_num (n : Nat) (c : ℝ) :
    jsum (List.replicate n (.num c)) = .num (n * c) := by
  induction n with
  | zero => simp
  | succ m ih =>
      rw [List.replicate_succ, jsum_cons, ih, jadd_num]
      push_cast
      ring_nf

theorem jsum_replicate_nan {n : Nat} (hn : 1 ≤ n) :
    jsum (List.replicate n JSNum.nan) = .nan := by
  obtain ⟨m, rfl⟩ := Nat.exists_eq_add_of_le hn
  rw [Nat.add_comm, List.replicate_succ, jsum_cons, jadd_nan_left]

theorem jsum_all_nan {l : List JSNum} (hne : l ≠ []) (h : ∀ x ∈ l, x = JSNum.nan) :
    jsum l = .nan := by
  have : l = List.replicate l.length JSNum.nan := by
    exact List.eq_replicate_iff.2 ⟨rfl, h⟩
  rw [this]
  apply jsum_replicate_nan
  cases l with
  | nil => exact absurd rfl hne
  | cons a as => simp

theorem initializeMeans_length (data : List JSNum) (k : Nat) :
    (initializeMeans data k).length = k := by
  by_cases h1 : k = 1
  · simp [initializeMeans, h1]
  · by_cases h2 : k = 2
    · simp [initializeMeans, h1, h2]
    · simp [initializeMeans, h1, h2]

/-- The length invariant maintained by the EM loop. -/
def emLens (k : Nat) (st : EMState) : Prop :=
  st.means.length = k ∧ st.variances.length = k ∧ st.weights.length = k

theorem emStep_cases (data : List JSNum) (k : Nat) (st : EMState) :
    emStep data k st = st ∨
    ∃ resp pl dn, emStep data k st =
      ⟨mStepMeans data k resp, mStepVariances data k resp (mStepMeans data k resp),
       mStepWeights data.length k resp, pl, dn⟩ := by
  by_cases hd : st.done
  · left
    simp [emStep, hd]
  · right
    refine ⟨eStep data k st.means st.variances st.weights, ?_⟩
    simp only [emStep, hd, Bool.false_eq_true, if_false]
    split_ifs with h
    · exact ⟨st.prevLL, true, rfl⟩
    · exact ⟨_, false, rfl⟩

theorem emStep_lengths (data : List JSNum) (k : Nat) (st : EMState) (h : emLens k st) :
    emLens k (emStep data k st) := by
  rcases emStep_cases data k st with heq | ⟨resp, pl, dn, heq⟩
  · rw [heq]; exact h
  · rw [heq]
    exact ⟨by simp [mStepMeans], by simp [mStepVariances], by simp [mStepWeights]⟩

theorem emIterate_lengths (data : List JSNum) (k : Nat) (m : Nat) :
    emLens k ((emStep data k)^[m] (emInit data k)) := by
  induction m with
  | zero =>
      refine ⟨initializeMeans_length data k, ?_, ?_⟩ <;> simp [emInit]
  | succ n ih =>
      rw [Function.iterate_succ_apply']
      exact emStep_lengths data k _ ih

set_option maxRecDepth 10000 in
/-- C9: every model produced by the EM fit (`simpleGMM`, for any dataset and
any component count `k`) or by the small-sample fallback (`simpleMeanStd`)
has `means`, `variances` and `weights` lists whose lengths all equal
`nComponents`. -/
theorem C9_component_lengths (data : List JSNum) (k : Nat) :
    ((simpleGMM data k).means.length = (simpleGMM data k).nComponents ∧
     (simpleGMM data k).variances.length = (simpleGMM data k).nComponents ∧
     (simpleGMM data k).weights.length = (simpleGMM data k).nComponents ∧
     (simpleGMM data k).nComponents = k) ∧
    ((simpleMeanStd data).means.length = (simpleMeanStd data).nComponents ∧
     (simpleMeanStd data).variances.length = (simpleMeanStd data).nComponents ∧
     (simpleMeanStd data).weights.length = (simpleMeanStd data).nComponents ∧
     (simpleMeanStd data).nComponents = 1) := by
  obtain ⟨h1, h2, h3⟩ := emIterate_lengths data k 100
  exact ⟨⟨h1, h2, h3, rfl⟩, rfl, rfl, rfl, rfl⟩

set_option maxRecDepth 40000

/-- C5: the fitting pipeline never throws.  `fitGMME` makes the one fallible
operation of the pipeline explicit (`validModels.reduce` with no initial
value, which throws on an empty array); on every dataset it succeeds and
returns exactly the model computed by the total embedding `fitGMM`.
Numeric degeneracies can only appear as NaN/Infinity values inside the
returned model's fields. -/
theorem C5_never_throws (data : List JSNum) (h : 1 ≤ data.length) :
    fitGMME data = Except.ok (fitGMM data) := by
  by_cases h5 : data.length < 5
  · simp [fitGMME, fitGMM, h5]
  · simp only [fitGMME, fitGMM, h5, if_false]
    simp only [selectScored]
    cases hv : (scoredModels data).filter (fun m => m.passesWeightConstraint) with
    | nil => simp [hv]
    | cons v vs => simp [hv, jsReduceNoInit, reduceBest, Except.map]

/-- Witness for C5 at the concrete dataset `[1]`. -/
theorem C5_never_throws_witness :
    1 ≤ ([JSNum.num 1] : List JSNum).length ∧
    fitGMME [JSNum.num 1] = Except.ok (fitGMM [JSNum.num 1]) :=
  ⟨by simp, C5_never_throws [JSNum.num 1] (by simp)⟩

theorem foldl_jadd_map {α : Type} (g : α → JSNum) (l : List α) (a : JSNum) :
    l.foldl (fun s x => jadd s (g x)) a = jadd a (jsum (l.map g)) := by
  rw [← List.foldl_map]
  exact foldl_jadd_eq _ _

/-- Log-likelihood written as the specification words it: the sum over the
samples of `log(sum over components of weight_j * GaussianPDF(x_i; mean_j,
sqrt(variance_j)) + 1e-10)`, with the sums as `jsum` of mapped lists.  This
definition follows the specification text; `calculateLogLikelihood` follows
the source's accumulating loops, and the two are proved equal. -/
noncomputable def specLogLikelihood (data means variances weights : List JSNum) : JSNum :=
  jsum (data.map (fun x => jlog (jadd
    (jsum ((List.range means.length).map (fun j =>
      jmul (weights.getD j .nan)
        (gaussianPDF x (means.getD j .nan) (jsqrt (variances.getD j .nan))))))
    (.num 1e-10))))

/-- BIC written as the specification words it:
`-2 * logLikelihood + numParams * ln(n)`. -/
noncomputable def specBIC (data : List JSNum) (model : MixtureModel) : JSNum :=
  jadd (jmul (.num (-2)) (specLogLikelihood data model.means model.variances model.weights))
       (jmul (.num (numParams model.nComponents : ℝ)) (jlog (.num (data.length : ℝ))))

theorem calculateLogLikelihood_eq_spec (data means variances weights : List JSNum) :
    calculateLogLikelihood data means variances weights =
      specLogLikelihood data means variances weights := by
  unfold calculateLogLikelihood specLogLikelihood
  simp only [foldl_jadd_map, jadd_zero_left]

/-- C6: for every dataset and every fitted model, the BIC score of
`calculateBIC` equals `-2 * logLikelihood + numParams * ln(n)` with the
log-likelihood being the sum over samples of `log(sum over components of
weight_j * GaussianPDF(x_i; mean_j, sqrt(variance_j)) + 1e-10)` (the
spec-shaped `specBIC`), and `numParams = k + k + (k-1)` evaluates to 2, 5
and 8 for k = 1, 2, 3. -/
theorem C6_bic_formula (data : List JSNum) (model : MixtureModel) :
    calculateBIC data model = specBIC data model ∧
    numParams 1 = 2 ∧ numParams 2 = 5 ∧ numParams 3 = 8 := by
  refine ⟨?_, by decide, by decide, by decide⟩
  unfold calculateBIC specBIC
  rw [calculateLogLikelihood_eq_spec]

/-- The seeding indices of `initializeMeans`, as the specification words
them: `floor(n/2)` for k = 1; `floor(n/3)` and `floor(2n/3)` for k = 2;
`floor((j+1)*n/(k+1))` for j = 0..k-1 otherwise. -/
def initIdx (n k : Nat) : List Nat :=
  if k = 1 then [n / 2]
  else if k = 2 then [n / 3, 2 * n / 3]
  else (List.range k).map (fun j => (j + 1) * n / (k + 1))

theorem jsSort_length (data : List JSNum) : (jsSort data).length = data.length :=
  List.length_insertionSort jsle data

theorem initializeMeans_eq_map (data : List JSNum) (k : Nat) :
    initializeMeans data k = (initIdx data.length k).map (fun i => (jsSort data).getD i .nan) := by
  have hlen : (jsSort data).length = data.length := jsSort_length data
  by_cases h1 : k = 1
  · simp [initializeMeans, initIdx, h1, hlen]
  · by_cases h2 : k = 2
    · simp [initializeMeans, initIdx, h1, h2, hlen]
    · simp [initializeMeans, initIdx, h1, h2, hlen, List.map_map, Function.comp]

/-- C7: EM initialization sorts the data ascending (the sorted list is a
sorted permutation of the input) and seeds the means at the order statistics
`floor(n/2)` (k = 1), `floor(n/3)` and `floor(2n/3)` (k = 2), and
`floor((j+1)*n/(k+1))` for j = 0..k-1 (k >= 3); all variances are
initialized to `1.0` and all weights to `1/k`. -/
theorem C7_initialization (data : List JSNum) (k : Nat) (hn : 1 ≤ data.length)
    (hk : 1 ≤ k) :
    List.Perm (jsSort data) data ∧
    List.Sorted jsle (jsSort data) ∧
    initializeMeans data k = (initIdx data.length k).map (fun i => (jsSort data).getD i .nan) ∧
    initIdx data.length 1 = [data.length / 2] ∧
    initIdx data.length 2 = [data.length / 3, 2 * data.length / 3] ∧
    (3 ≤ k → initIdx data.length k =
      (List.range k).map (fun j => (j + 1) * data.length / (k + 1))) ∧
    emInit data k = ⟨initializeMeans data k, List.replicate k (.num 1),
      List.replicate k (.num (1 / (k : ℝ))), .ninf, false⟩ := by
  refine ⟨List.perm_insertionSort jsle data, List.sorted_insertionSort jsle data,
    initializeMeans_eq_map data k, rfl, by simp [initIdx], ?_, ?_⟩
  · intro h3
    have h1 : k ≠ 1 := by omega
    have h2 : k ≠ 2 := by omega
    simp [initIdx, h1, h2]
  · have hk0 : (k : ℝ) ≠ 0 := by
      exact_mod_cast Nat.pos_iff_ne_zero.1 hk
    simp [emInit, jdiv_num_of_ne 1 hk0]

/-- Witness for C7 at the dataset `[3, 1, 2]` with `k = 2`. -/
theorem C7_initialization_witness :
    1 ≤ ([JSNum.num 3, JSNum.num 1, JSNum.num 2] : List JSNum).length ∧ 1 ≤ 2 ∧
    (List.Perm (jsSort [JSNum.num 3, JSNum.num 1, JSNum.num 2])
        [JSNum.num 3, JSNum.num 1, JSNum.num 2] ∧
     List.Sorted jsle (jsSort [JSNum.num 3, JSNum.num 1, JSNum.num 2]) ∧
     initializeMeans [JSNum.num 3, JSNum.num 1, JSNum.num 2] 2 =
       (initIdx 3 2).map (fun i => (jsSort [JSNum.num 3, JSNum.num 1, JSNum.num 2]).getD i .nan) ∧
     initIdx 3 1 = [3 / 2] ∧
     initIdx 3 2 = [3 / 3, 2 * 3 / 3] ∧
     (3 ≤ 2 → initIdx 3 2 = (List.range 2).map (fun j => (j + 1) * 3 / (2 + 1))) ∧
     emInit [JSNum.num 3, JSNum.num 1, JSNum.num 2] 2 =
       ⟨initializeMeans [JSNum.num 3, JSNum.num 1, JSNum.num 2] 2,
        List.replicate 2 (.num 1), List.replicate 2 (.num (1 / (2 : ℝ))), .ninf, false⟩) :=
  ⟨by simp, by simp,
   C7_initialization [JSNum.num 3, JSNum.num 1, JSNum.num 2] 2 (by simp) (by simp)⟩

theorem initIdx_lt (n k : Nat) (hn : 1 ≤ n) (hk : 1 ≤ k) :
    ∀ i ∈ initIdx n k, i < n := by
  intro i hi
  by_cases h1 : k = 1
  · simp [initIdx, h1] at hi
    subst hi
    exact Nat.div_lt_self (by omega) (by omega)
  · by_cases h2 : k = 2
    · simp [initIdx, h1, h2] at hi
      rcases hi with hi | hi <;> subst hi
      · exact Nat.div_lt_self (by omega) (by omega)
      · rw [Nat.div_lt_iff_lt_mul (by omega : 0 < 3)]
        omega
    · simp [initIdx, h1, h2] at hi
      obtain ⟨j, hj, rfl⟩ := hi
      rw [Nat.div_lt_iff_lt_mul (by omega : 0 < k + 1)]
      calc (j + 1) * n ≤ k * n := Nat.mul_le_mul_right n (by omega)
        _ < n * (k + 1) := by
            rw [mul_comm n (k + 1)]
            exact (Nat.mul_lt_mul_right (by omega)).2 (by omega)

/-- C10: for every dataset of length at least 1 and every component count
`k >= 1`, each index used by `initializeMeans` is strictly below the data
length (no out-of-bounds read), and every seeded mean is an element of the
input dataset. -/
theorem C10_init_in_bounds (data : List JSNum) (k : Nat) (hn : 1 ≤ data.length)
    (hk : 1 ≤ k) :
    (∀ i ∈ initIdx data.length k, i < data.length) ∧
    ∀ m ∈ initializeMeans data k, m ∈ data := by
  refine ⟨initIdx_lt data.length k hn hk, ?_⟩
  intro m hm
  rw [initializeMeans_eq_map] at hm
  simp only [List.mem_map] at hm
  obtain ⟨i, hi, rfl⟩ := hm
  have hlt : i < (jsSort data).length := by
    rw [jsSort_length]
    exact initIdx_lt data.length k hn hk i hi
  rw [List.getD_eq_getElem (jsSort data) .nan hlt]
  exact (List.perm_insertionSort jsle data).subset (List.getElem_mem hlt)

/-- Witness for C10 at the dataset `[1, 2]` with `k = 3`. -/
theorem C10_init_in_bounds_witness :
    1 ≤ ([JSNum.num 1, JSNum.num 2] : List JSNum).length ∧ 1 ≤ 3 ∧
    ((∀ i ∈ initIdx ([JSNum.num 1, JSNum.num 2] : List JSNum).length 3,
        i < ([JSNum.num 1, JSNum.num 2] : List JSNum).length) ∧
     ∀ m ∈ initializeMeans [JSNum.num 1, JSNum.num 2] 3,
        m ∈ ([JSNum.num 1, JSNum.num 2] : List JSNum)) :=
  ⟨by simp, by simp, C10_init_in_bounds [JSNum.num 1, JSNum.num 2] 3 (by simp) (by simp)⟩

theorem jsum_map_num_id (l : List ℝ) : jsum (l.map JSNum.num) = .num l.sum := by
  have h := jsum_map_num (fun x => x) l
  simpa using h

theorem foldl_sq_sum (ds : List ℝ) (m : ℝ) :
    (ds.map JSNum.num).foldl (fun sum v => jadd sum (jsq (jsub v (.num m)))) (.num 0) =
      .num ((ds.map (fun x => (x - m) * (x - m))).sum) := by
  rw [List.foldl_map, foldl_jadd_map]
  simp only [jadd_zero_left, jsub_num, jsq_num]
  exact jsum_map_num _ ds

/-- C8: for every dataset of real samples with fewer than 5 elements, the
selector bypasses EM: `fitGMM` returns the `simpleMeanStd` model, whose mean
is the plain sample mean, whose variance is the Bessel-corrected sample
variance when `n >= 3` and NaN when `n < 3`, whose weights are `[1.0]`, and
which carries the degenerate-fallback flag (`isSimple = true`). -/
theorem C8_small_sample (ds : List ℝ) (h1 : 1 ≤ ds.length) (h5 : ds.length < 5) :
    fitGMM (ds.map JSNum.num) = Sum.inl (simpleMeanStd (ds.map JSNum.num)) ∧
    simpleMeanStd (ds.map JSNum.num) =
      ⟨1, [.num (ds.sum / ds.length)],
       [if 3 ≤ ds.length then
          .num ((ds.map (fun x =>
              (x - ds.sum / ds.length) * (x - ds.sum / ds.length))).sum /
            ((ds.length : ℝ) - 1))
        else .nan],
       [.num 1], true⟩ := by
  have hnn : ((ds.length : ℝ)) ≠ 0 := by
    exact_mod_cast (by omega : ds.length ≠ 0)
  constructor
  · simp [fitGMM, h5]
  · simp only [simpleMeanStd, List.length_map, jsum_map_num_id]
    rw [jdiv_num_of_ne ds.sum hnn]
    by_cases h3 : 3 ≤ ds.length
    · have hm1 : ((ds.length : ℝ)) - 1 ≠ 0 := by
        have : (3 : ℝ) ≤ (ds.length : ℝ) := by exact_mod_cast h3
        intro hc
        rw [sub_eq_zero] at hc
        rw [hc] at this
        norm_num at this
      rw [if_pos h3, if_pos h3, foldl_sq_sum, jdiv_num_of_ne _ hm1]
    · rw [if_neg h3, if_neg h3]

/-- Witness for C8 at the concrete length-2 dataset `[1, 2]`: the returned
model has one component, NaN variance, weight `[1.0]` and the degenerate
flag set. -/
theorem C8_small_sample_witness :
    1 ≤ ([1, 2] : List ℝ).length ∧ ([1, 2] : List ℝ).length < 5 ∧
    (fitGMM (([1, 2] : List ℝ).map JSNum.num) =
        Sum.inl (simpleMeanStd (([1, 2] : List ℝ).map JSNum.num)) ∧
     simpleMeanStd (([1, 2] : List ℝ).map JSNum.num) =
        ⟨1, [.num (([1, 2] : List ℝ).sum / ([1, 2] : List ℝ).length)],
         [if 3 ≤ ([1, 2] : List ℝ).length then
            .num ((([1, 2] : List ℝ).map (fun x =>
                (x - ([1, 2] : List ℝ).sum / ([1, 2] : List ℝ).length) *
                (x - ([1, 2] : List ℝ).sum / ([1, 2] : List ℝ).length))).sum /
              ((([1, 2] : List ℝ).length : ℝ) - 1))
          else .nan],
         [.num 1], true⟩) :=
  ⟨by simp, by simp, C8_small_sample [1, 2] (by simp) (by simp)⟩

theorem foldl_bicStep_mem (v : ScoredModel) (vs : List ScoredModel) :
    vs.foldl bicStep v = v ∨ vs.foldl bicStep v ∈ vs := by
  induction vs generalizing v with
  | nil => left; rfl
  | cons m rest ih =>
      rw [List.foldl_cons]
      by_cases hc : jltb m.bic v.bic = true
      · have hb : bicStep v m = m := by simp [bicStep, hc]
        rw [hb]
        rcases ih m with h | h
        · right; rw [h]; exact List.mem_cons_self m rest
        · right; exact List.mem_cons_of_mem m h
      · have hb : bicStep v m = v := by simp [bicStep, hc]
        rw [hb]
        rcases ih v with h | h
        · left; exact h
        · right; exact List.mem_cons_of_mem m h

theorem foldl_bicStep_le (v : ScoredModel) (vs : List ScoredModel) :
    vs.foldl bicStep v = v ∨ jltb (vs.foldl bicStep v).bic v.bic = true := by
  induction vs generalizing v with
  | nil => left; rfl
  | cons m rest ih =>
      rw [List.foldl_cons]
      by_cases hc : jltb m.bic v.bic = true
      · have hb : bicStep v m = m := by simp [bicStep, hc]
        rw [hb]
        rcases ih m with h | h
        · right; rw [h]; exact hc
        · right; exact jltb_trans h hc
      · have hb : bicStep v m = v := by simp [bicStep, hc]
        rw [hb]
        exact ih v

theorem foldl_bicStep_min (v : ScoredModel) (vs : List ScoredModel) :
    ∀ m ∈ v :: vs, jltb m.bic ((vs.foldl bicStep v)).bic = false := by
  induction vs generalizing v with
  | nil =>
      intro m hm
      rw [List.mem_singleton] at hm
      subst hm
      exact jltb_irrefl _
  | cons m0 rest ih =>
      intro m hm
      rw [List.foldl_cons]
      by_cases hc : jltb m0.bic v.bic = true
      · have hb : bicStep v m0 = m0 := by simp [bicStep, hc]
        rw [hb]
        rcases List.mem_cons.1 hm with rfl | hm'
        · rcases foldl_bicStep_le m0 rest with hr | hr
          · rw [hr]; exact jltb_asymm hc
          · cases hx : jltb m.bic (rest.foldl bicStep m0).bic
            · rfl
            · have h1 := jltb_trans (jltb_trans hx hr) hc
              rw [jltb_irrefl] at h1
              exact absurd h1 (by simp)
        · exact ih m0 m hm'
      · have hb : bicStep v m0 = v := by simp [bicStep, hc]
        rw [hb]
        rcases List.mem_cons.1 hm with rfl | hm'
        · exact ih m m (List.mem_cons_self m rest)
        · rcases List.mem_cons.1 hm' with rfl | hm2
          · rcases foldl_bicStep_le v rest with hr | hr
            · rw [hr]; exact eq_false_of_ne_true hc
            · cases hx : jltb m.bic (rest.foldl bicStep v).bic
              · rfl
              · have h1 := jltb_trans hx hr
                exact absurd h1 hc
          · exact ih v m (List.mem_cons_of_mem v hm2)

theorem foldl_bicStep_first (v : ScoredModel) (vs : List ScoredModel)
    (hnn : ∀ m ∈ v :: vs, jisNaN m.bic = false) :
    ∃ i, i < (v :: vs).length ∧ (v :: vs).get? i = some (vs.foldl bicStep v) ∧
      ∀ j, j < i → ∃ m, (v :: vs).get? j = some m ∧
        jltb (vs.foldl bicStep v).bic m.bic = true := by
  induction vs generalizing v with
  | nil =>
      exact ⟨0, by simp, rfl, fun j hj => absurd hj (Nat.not_lt_zero j)⟩
  | cons m0 rest ih =>
      rw [List.foldl_cons]
      by_cases hc : jltb m0.bic v.bic = true
      · have hb : bicStep v m0 = m0 := by simp [bicStep, hc]
        rw [hb]
        obtain ⟨i, hlen, hget, hfirst⟩ :=
          ih m0 (fun m hm => hnn m (List.mem_cons_of_mem v hm))
        refine ⟨i + 1, ?_, ?_, ?_⟩
        · simp only [List.length_cons] at hlen ⊢
          omega
        · simpa using hget
        · intro j hj
          cases j with
          | zero =>
              refine ⟨v, rfl, ?_⟩
              rcases foldl_bicStep_le m0 rest with hr | hr
              · rw [hr]; exact hc
              · exact jltb_trans hr hc
          | succ j1 =>
              obtain ⟨m, hm1, hm2⟩ := hfirst j1 (Nat.lt_of_succ_lt_succ hj)
              exact ⟨m, by simpa using hm1, hm2⟩
      · have hb : bicStep v m0 = v := by simp [bicStep, hc]
        rw [hb]
        have hnn' : ∀ m ∈ v :: rest, jisNaN m.bic = false := by
          intro m hm
          rcases List.mem_cons.1 hm with rfl | hm'
          · exact hnn m (List.mem_cons_self m (m0 :: rest))
          · exact hnn m (List.mem_cons_of_mem v (List.mem_cons_of_mem m0 hm'))
        obtain ⟨i, hlen, hget, hfirst⟩ := ih v hnn'
        cases i with
        | zero =>
            refine ⟨0, by simp, ?_, fun j hj => absurd hj (Nat.not_lt_zero j)⟩
            simpa using hget
        | succ i1 =>
            refine ⟨i1 + 2, ?_, ?_, ?_⟩
            · simp only [List.length_cons] at hlen ⊢
              omega
            · have h2 : (v :: rest).get? (i1 + 1) = rest.get? i1 := by simp
              rw [h2] at hget
              simpa using hget
            · intro j hj
              obtain ⟨mv, hmv1, hmv2⟩ := hfirst 0 (Nat.succ_pos i1)
              have hmveq : mv = v := by
                simp only [List.get?_cons_zero] at hmv1
                exact (Option.some.inj hmv1).symm
              subst hmveq
              match j, hj with
              | 0, _ => exact ⟨mv, rfl, hmv2⟩
              | 1, _ =>
                  refine ⟨m0, rfl, ?_⟩
                  cases hvm : jltb mv.bic m0.bic
                  · have heq := jltb_connex (hnn mv (List.mem_cons_self mv (m0 :: rest)))
                      (hnn m0 (List.mem_cons_of_mem mv (List.mem_cons_self m0 rest)))
                      hvm (eq_false_of_ne_true hc)
                    rw [← heq]
                    exact hmv2
                  · exact jltb_trans hmv2 hvm
              | (j2 + 2), hj =>
                  obtain ⟨m, hm1, hm2⟩ := hfirst (j2 + 1) (by omega)
                  have h3 : (mv :: rest).get? (j2 + 1) = rest.get? j2 := by simp
                  rw [h3] at hm1
                  exact ⟨m, by simpa using hm1, hm2⟩

theorem selectScored_of_filter_nil (data : List JSNum)
    (hv : (scoredModels data).filter (fun m => m.passesWeightConstraint) = []) :
    selectScored data = scoreModel data 1 := by
  simp only [selectScored]
  rw [hv]
  simp

theorem selectScored_of_filter_cons (data : List JSNum) (v : ScoredModel)
    (vs : List ScoredModel)
    (hv : (scoredModels data).filter (fun m => m.passesWeightConstraint) = v :: vs) :
    selectScored data = vs.foldl bicStep v := by
  simp only [selectScored]
  rw [hv]
  simp [reduceBest]

/-- C1: for every dataset of length at least 5, `fitGMM` runs the scored
selection: models for k = 1, 2, 3 are fitted in that order, each scored with
its BIC and the dominance test `max(weights) >= 0.5`; the survivors of the
dominance filter are reduced with the strict `<` comparison, so the result
is a survivor no survivor strictly beats, and (when the BICs are comparable,
i.e. none is NaN) the earliest survivor attaining the minimum BIC; if no
model survives the filter, the k = 1 model is returned regardless of its own
constraint status. -/
theorem C1_model_selection (data : List JSNum) (h5 : 5 ≤ data.length) :
    fitGMM data = Sum.inr (selectScored data) ∧
    scoredModels data = [scoreModel data 1, scoreModel data 2, scoreModel data 3] ∧
    (∀ k, scoreModel data k =
      ⟨simpleGMM data k, calculateBIC data (simpleGMM data k),
       jgeb (listMax (simpleGMM data k).weights) (.num 0.5)⟩) ∧
    ((scoredModels data).filter (fun m => m.passesWeightConstraint) = [] →
      selectScored data = scoreModel data 1) ∧
    ∀ v vs, (scoredModels data).filter (fun m => m.passesWeightConstraint) = v :: vs →
      (selectScored data ∈ v :: vs ∧
       (∀ m ∈ v :: vs, jltb m.bic (selectScored data).bic = false) ∧
       ((∀ m ∈ scoredModels data, jisNaN m.bic = false) →
         ∃ i, i < (v :: vs).length ∧ (v :: vs).get? i = some (selectScored data) ∧
           ∀ j, j < i → ∃ m, (v :: vs).get? j = some m ∧
             jltb (selectScored data).bic m.bic = true)) := by
  refine ⟨by simp [fitGMM, Nat.not_lt.2 h5], rfl, fun k => rfl,
    selectScored_of_filter_nil data, ?_⟩
  intro v vs hv
  rw [selectScored_of_filter_cons data v vs hv]
  refine ⟨?_, foldl_bicStep_min v vs, ?_⟩
  · rcases foldl_bicStep_mem v vs with h | h
    · rw [h]; exact List.mem_cons_self v vs
    · exact List.mem_cons_of_mem v h
  · intro hnn
    refine foldl_bicStep_first v vs ?_
    intro m hm
    refine hnn m ?_
    rw [← hv] at hm
    exact List.mem_of_mem_filter hm

/-- A concrete 5-element dataset used by witnesses. -/
noncomputable def sampleData5 : List JSNum :=
  [.num 1, .num 2, .num 3, .num 4, .num 5]

/-- Witness for C1 at the concrete dataset `[1, 2, 3, 4, 5]`. -/
theorem C1_model_selection_witness :
    5 ≤ sampleData5.length ∧
    (fitGMM sampleData5 = Sum.inr (selectScored sampleData5) ∧
     scoredModels sampleData5 =
       [scoreModel sampleData5 1, scoreModel sampleData5 2, scoreModel sampleData5 3] ∧
     (∀ k, scoreModel sampleData5 k =
       ⟨simpleGMM sampleData5 k, calculateBIC sampleData5 (simpleGMM sampleData5 k),
        jgeb (listMax (simpleGMM sampleData5 k).weights) (.num 0.5)⟩) ∧
     ((scoredModels sampleData5).filter (fun m => m.passesWeightConstraint) = [] →
       selectScored sampleData5 = scoreModel sampleData5 1) ∧
     ∀ v vs,
       (scoredModels sampleData5).filter (fun m => m.passesWeightConstraint) = v :: vs →
       (selectScored sampleData5 ∈ v :: vs ∧
        (∀ m ∈ v :: vs, jltb m.bic (selectScored sampleData5).bic = false) ∧
        ((∀ m ∈ scoredModels sampleData5, jisNaN m.bic = false) →
          ∃ i, i < (v :: vs).length ∧ (v :: vs).get? i = some (selectScored sampleData5) ∧
            ∀ j, j < i → ∃ m, (v :: vs).get? j = some m ∧
              jltb (selectScored sampleData5).bic m.bic = true))) :=
  ⟨by simp [sampleData5], C1_model_selection sampleData5 (by simp [sampleData5])⟩

/-- The value `gaussianPDF(v, v, 1) = 1/sqrt(2*PI)` of the unit-variance
Gaussian density at its mean. -/
noncomputable def gmmc : ℝ := (Real.sqrt (2 * Real.pi))⁻¹

/-- The responsibility `gmmc / (gmmc + 1e-10)` that the single component
receives on constant data in the first EM iteration. -/
noncomputable def gmmr : ℝ := gmmc / (gmmc + 1e-10)

theorem gmmc_pos : 0 < gmmc := by
  have : 0 < Real.sqrt (2 * Real.pi) := Real.sqrt_pos.2 (by positivity)
  exact inv_pos.2 this

theorem gmmr_pos : 0 < gmmr := by
  have h1 := gmmc_pos
  have h2 : (0 : ℝ) < gmmc + 1e-10 := by positivity
  exact div_pos h1 h2

theorem jdiv_neg_zero {a : ℝ} (ha : a < 0) : jdiv (.num a) (.num 0) = .ninf := by
  simp [jdiv, ha.ne, not_lt.2 ha.le]

theorem pdf_same_var1 (v : ℝ) :
    gaussianPDF (.num v) (.num v) (.num 1) = .num gmmc := by
  have h2pi : (0 : ℝ) ≤ 2 * Real.pi := by positivity
  have hs2pi : Real.sqrt (2 * Real.pi) ≠ 0 :=
    (Real.sqrt_pos.2 (by positivity)).ne'
  simp only [gaussianPDF, jmul_num, jsqrt_num_of_nonneg h2pi, jsub_num, sub_self,
    jsq_num, mul_zero, jneg_num, neg_zero, one_mul, mul_one,
    jdiv_num_of_ne 1 hs2pi, jdiv_num_of_ne 0 (two_ne_zero (α := ℝ)), zero_div,
    jexp_num, Real.exp_zero, gmmc, one_div]

theorem pdf_var0 (x m : ℝ) :
    gaussianPDF (.num x) (.num m) (.num 0) = .nan := by
  have h2pi : (0 : ℝ) ≤ 2 * Real.pi := by positivity
  by_cases hxm : x - m = 0
  · simp only [gaussianPDF, jmul_num, jsqrt_num_of_nonneg h2pi, jsub_num, hxm,
      jsq_num, mul_zero, zero_mul, jneg_num, neg_zero, jdiv_zero_zero, jexp_nan,
      jmul_nan_right, jdiv_pos_zero (one_pos (α := ℝ))]
  · have hneg : -((x - m) * (x - m)) < 0 := by
      have h := mul_self_pos.2 hxm
      linarith
    simp only [gaussianPDF, jmul_num, jsqrt_num_of_nonneg h2pi, jsub_num,
      jsq_num, jneg_num, zero_mul, mul_zero, jdiv_pos_zero (one_pos (α := ℝ)),
      jdiv_neg_zero hneg, jexp_ninf, jmul_inf_num_zero]

theorem pdf_sd_nan (x mean : JSNum) : gaussianPDF x mean .nan = .nan := by
  simp [gaussianPDF]

theorem range_one_eq : List.range 1 = [0] := rfl

theorem jsSort_replicate (n : Nat) (x : JSNum) :
    jsSort (List.replicate n x) = List.replicate n x := by
  apply List.eq_replicate_iff.2
  constructor
  · rw [jsSort_length]
    simp
  · intro b hb
    have hmem := (List.perm_insertionSort jsle (List.replicate n x)).mem_iff.1 hb
    exact List.eq_of_mem_replicate hmem

theorem getD_replicate_of_lt {n i : Nat} (h : i < n) (x d : JSNum) :
    (List.replicate n x).getD i d = x := by
  rw [List.getD_eq_getElem _ _ (by simpa using h)]
  simp

theorem zip_replicate_eq {α β : Type} (n : Nat) (a : α) (b : β) :
    (List.replicate n a).zip (List.replicate n b) = List.replicate n (a, b) := by
  induction n with
  | zero => rfl
  | succ m ih => simp [List.replicate_succ, ih]

theorem emInit_const (n : Nat) (hn : 1 ≤ n) (v : ℝ) :
    emInit (List.replicate n (.num v)) 1 = ⟨[.num v], [.num 1], [.num 1], .ninf, false⟩ := by
  have hidx : n / 2 < n := Nat.div_lt_self (by omega) (by omega)
  unfold emInit initializeMeans
  simp only [if_pos rfl, jsSort_replicate, List.length_replicate,
    getD_replicate_of_lt hidx, List.replicate_succ, List.replicate_zero, Nat.cast_one]
  rw [jdiv_num_of_ne 1 (one_ne_zero (α := ℝ))]
  norm_num

theorem eStep_const_first (n : Nat) (v : ℝ) :
    eStep (List.replicate n (.num v)) 1 [.num v] [.num 1] [.num 1] =
      List.replicate n [.num gmmr] := by
  have hcne : gmmc + 1e-10 ≠ 0 := by
    have := gmmc_pos
    positivity
  unfold eStep
  rw [List.map_replicate]
  congr 1
  simp only [eRow, range_one_eq, List.map_cons, List.map_nil, List.getD_cons_zero,
    jsqrt_num_of_nonneg (zero_le_one (α := ℝ)), Real.sqrt_one, pdf_same_var1,
    jmul_num, one_mul, jsum_cons, jsum_nil, jadd_zero_right, jadd_num,
    jdiv_num_of_ne gmmc hcne, gmmr]

theorem eStep_const_var0 (n : Nat) (v : ℝ) (w : JSNum) :
    eStep (List.replicate n (.num v)) 1 [.num v] [.num 0] [w] =
      List.replicate n [JSNum.nan] := by
  unfold eStep
  rw [List.map_replicate]
  congr 1
  simp only [eRow, range_one_eq, List.map_cons, List.map_nil, List.getD_cons_zero,
    jsqrt_num_of_nonneg (le_refl (0 : ℝ)), Real.sqrt_zero, pdf_var0, jmul_nan_right,
    jsum_cons, jsum_nil, jadd_zero_right, jadd_nan_left, jdiv_nan_left]

theorem eStep_all_nan (n : Nat) (v : ℝ) :
    eStep (List.replicate n (.num v)) 1 [JSNum.nan] [JSNum.nan] [JSNum.nan] =
      List.replicate n [JSNum.nan] := by
  unfold eStep
  rw [List.map_replicate]
  congr 1
  simp only [eRow, range_one_eq, List.map_cons, List.map_nil, List.getD_cons_zero,
    jsqrt_nan, pdf_sd_nan, jmul_nan_left, jsum_cons, jsum_nil, jadd_zero_right,
    jadd_nan_left, jdiv_nan_left]

theorem mStepNk_const (n : Nat) (r : ℝ) :
    mStepNk (List.replicate n [JSNum.num r]) 0 = .num (n * r) := by
  unfold mStepNk
  rw [foldl_jadd_map, List.map_replicate]
  simp only [List.getD_cons_zero, jsum_replicate_num, jadd_zero_left]

theorem mStepNk_nan (n : Nat) (hn : 1 ≤ n) :
    mStepNk (List.replicate n [JSNum.nan]) 0 = .nan := by
  unfold mStepNk
  rw [foldl_jadd_map, List.map_replicate]
  simp only [List.getD_cons_zero, jsum_replicate_nan hn, jadd_nan_right]

theorem mStepWeights_const (n : Nat) (hn : 1 ≤ n) (r : ℝ) :
    mStepWeights n 1 (List.replicate n [JSNum.num r]) = [.num r] := by
  have hne : ((n : ℝ)) ≠ 0 := by
    exact_mod_cast (by omega : n ≠ 0)
  unfold mStepWeights
  simp only [range_one_eq, List.map_cons, List.map_nil, mStepNk_const]
  rw [jdiv_num_of_ne _ hne]
  congr 2
  exact mul_div_cancel_left₀ r hne

theorem mStepMeans_const (n : Nat) (hn : 1 ≤ n) (v r : ℝ) (hr : r ≠ 0) :
    mStepMeans (List.replicate n (.num v)) 1 (List.replicate n [JSNum.num r]) = [.num v] := by
  have hne : ((n : ℝ)) ≠ 0 := by
    exact_mod_cast (by omega : n ≠ 0)
  have hnr : (n : ℝ) * r ≠ 0 := mul_ne_zero hne hr
  unfold mStepMeans
  simp only [range_one_eq, List.map_cons, List.map_nil, mStepNk_const, zip_replicate_eq]
  rw [foldl_jadd_map, List.map_replicate]
  simp only [List.getD_cons_zero, jmul_num, jsum_replicate_num, jadd_zero_left]
  rw [jdiv_num_of_ne _ hnr]
  congr 2
  field_simp
  ring

theorem mStepVariances_const (n : Nat) (hn : 1 ≤ n) (v r : ℝ) (hr : r ≠ 0) :
    mStepVariances (List.replicate n (.num v)) 1 (List.replicate n [JSNum.num r]) [.num v] =
      [.num 0] := by
  have hne : ((n : ℝ)) ≠ 0 := by
    exact_mod_cast (by omega : n ≠ 0)
  have hnr : (n : ℝ) * r ≠ 0 := mul_ne_zero hne hr
  unfold mStepVariances
  simp only [range_one_eq, List.map_cons, List.map_nil, mStepNk_const, zip_replicate_eq]
  rw [foldl_jadd_map, List.map_replicate]
  simp only [List.getD_cons_zero, jsub_num, sub_self, jmul_num, mul_zero, zero_mul,
    jsum_replicate_num, jadd_zero_left]
  rw [jdiv_num_of_ne _ hnr]
  simp

theorem mStepMeans_nan (n : Nat) (hn : 1 ≤ n) (v : ℝ) :
    mStepMeans (List.replicate n (.num v)) 1 (List.replicate n [JSNum.nan]) = [.nan] := by
  unfold mStepMeans
  simp only [range_one_eq, List.map_cons, List.map_nil, mStepNk_nan n hn, zip_replicate_eq]
  rw [foldl_jadd_map, List.map_replicate]
  simp only [List.getD_cons_zero, jmul_nan_left, jsum_replicate_nan hn, jadd_nan_right,
    jdiv_nan_left]

theorem mStepWeights_nan (n : Nat) (hn : 1 ≤ n) :
    mStepWeights n 1 (List.replicate n [JSNum.nan]) = [.nan] := by
  unfold mStepWeights
  simp only [range_one_eq, List.map_cons, List.map_nil, mStepNk_nan n hn, jdiv_nan_left]

theorem mStepVariances_nan (n : Nat) (hn : 1 ≤ n) (v : ℝ) :
    mStepVariances (List.replicate n (.num v)) 1 (List.replicate n [JSNum.nan]) [.nan] =
      [.nan] := by
  unfold mStepVariances
  simp only [range_one_eq, List.map_cons, List.map_nil, mStepNk_nan n hn, zip_replicate_eq]
  rw [foldl_jadd_map, List.map_replicate]
  simp only [List.getD_cons_zero, jsub_nan_right, jmul_nan_right, jmul_nan_left,
    jsum_replicate_nan hn, jadd_nan_right, jdiv_nan_left]

theorem cLL_const_var0 (n : Nat) (hn : 1 ≤ n) (v r : ℝ) :
    calculateLogLikelihood (List.replicate n (.num v)) [.num v] [.num 0] [.num r] = .nan := by
  unfold calculateLogLikelihood
  rw [foldl_jadd_map, List.map_replicate]
  simp only [List.length_singleton, range_one_eq, List.foldl_cons, List.foldl_nil,
    List.getD_cons_zero, jsqrt_num_of_nonneg (le_refl (0 : ℝ)), Real.sqrt_zero,
    pdf_var0, jmul_nan_right, jadd_nan_right, jadd_nan_left, jlog_nan,
    jsum_replicate_nan hn]

theorem cLL_all_nan (n : Nat) (hn : 1 ≤ n) (v : ℝ) :
    calculateLogLikelihood (List.replicate n (.num v)) [.nan] [.nan] [.nan] = .nan := by
  unfold calculateLogLikelihood
  rw [foldl_jadd_map, List.map_replicate]
  simp only [List.length_singleton, range_one_eq, List.foldl_cons, List.foldl_nil,
    List.getD_cons_zero, jsqrt_nan, pdf_sd_nan, jmul_nan_left, jadd_nan_right,
    jadd_nan_left, jlog_nan, jsum_replicate_nan hn]

theorem emStep_const_first (n : Nat) (hn : 1 ≤ n) (v : ℝ) :
    emStep (List.replicate n (.num v)) 1 ⟨[.num v], [.num 1], [.num 1], .ninf, false⟩ =
      ⟨[.num v], [.num 0], [.num gmmr], .nan, false⟩ := by
  have hr : gmmr ≠ 0 := ne_of_gt gmmr_pos
  unfold emStep
  simp only [Bool.false_eq_true, if_false, eStep_const_first n v,
    mStepMeans_const n hn v gmmr hr, mStepVariances_const n hn v gmmr hr,
    List.length_replicate, mStepWeights_const n hn gmmr, cLL_const_var0 n hn v gmmr,
    jsub_nan_left, jabs_nan, jltb_nan_left]

theorem emStep_const_var0 (n : Nat) (hn : 1 ≤ n) (v : ℝ) (w pl : JSNum) :
    emStep (List.replicate n (.num v)) 1 ⟨[.num v], [.num 0], [w], pl, false⟩ =
      ⟨[.nan], [.nan], [.nan], .nan, false⟩ := by
  unfold emStep
  simp only [Bool.false_eq_true, if_false, eStep_const_var0 n v w,
    mStepMeans_nan n hn v, mStepVariances_nan n hn v, List.length_replicate,
    mStepWeights_nan n hn, cLL_all_nan n hn v, jsub_nan_left, jabs_nan, jltb_nan_left]

theorem emStep_nan_fixed (n : Nat) (hn : 1 ≤ n) (v : ℝ) :
    emStep (List.replicate n (.num v)) 1 ⟨[.nan], [.nan], [.nan], .nan, false⟩ =
      ⟨[.nan], [.nan], [.nan], .nan, false⟩ := by
  unfold emStep
  simp only [Bool.false_eq_true, if_false, eStep_all_nan n v,
    mStepMeans_nan n hn v, mStepVariances_nan n hn v, List.length_replicate,
    mStepWeights_nan n hn, cLL_all_nan n hn v, jsub_nan_left, jabs_nan, jltb_nan_left]

theorem simpleGMM_const (v : ℝ) (n : Nat) (hn : 1 ≤ n) :
    simpleGMM (List.replicate n (.num v)) 1 = ⟨1, [.nan], [.nan], [.nan], false⟩ := by
  have h100 : (100 : Nat) = 98 + 1 + 1 := by norm_num
  have hiter : (emStep (List.replicate n (.num v)) 1)^[100]
      (emInit (List.replicate n (.num v)) 1) = ⟨[.nan], [.nan], [.nan], .nan, false⟩ := by
    rw [h100, Function.iterate_succ_apply, Function.iterate_succ_apply]
    rw [emInit_const n hn v, emStep_const_first n hn v, emStep_const_var0 n hn v _ _]
    exact Function.iterate_fixed (emStep_nan_fixed n hn v) 98
  simp only [simpleGMM, hiter]

/-- C3 as stated is false on the code: on the dataset `[5,5,5,5,5]` the k=1
EM fit does not converge to mean `5` and weight `[1.0]`.  The first
iteration collapses the variance to exactly `0`, after which
`gaussianPDF` evaluates to `Infinity * exp(NaN or -Infinity) = NaN` and
every parameter becomes NaN. -/
theorem C3_constant_data_counterexample :
    ¬((simpleGMM (List.replicate 5 (.num 5)) 1).means = [.num 5] ∧
      (simpleGMM (List.replicate 5 (.num 5)) 1).weights = [.num 1]) := by
  rw [simpleGMM_const 5 5 (by norm_num)]
  simp

/-- C3 amended: for every dataset of a single repeated value `v` (length
`n >= 1`), the first EM iteration of the k=1 fit does produce mean `v`,
variance `0` and weight `gmmc/(gmmc + 1e-10)` (with `gmmc = 1/sqrt(2*PI)`),
but the zero variance poisons the next iteration with NaN, and the model
returned after the loop has means, variances and weights all `[NaN]`. -/
theorem C3_constant_data_amended (v : ℝ) (n : Nat) (hn : 1 ≤ n) :
    emStep (List.replicate n (.num v)) 1 (emInit (List.replicate n (.num v)) 1) =
      ⟨[.num v], [.num 0], [.num gmmr], .nan, false⟩ ∧
    simpleGMM (List.replicate n (.num v)) 1 = ⟨1, [.nan], [.nan], [.nan], false⟩ := by
  constructor
  · rw [emInit_const n hn v]
    exact emStep_const_first n hn v
  · exact simpleGMM_const v n hn

/-- Witness for the amended C3 at `v = 5`, `n = 5`. -/
theorem C3_constant_data_amended_witness :
    1 ≤ 5 ∧
    (emStep (List.replicate 5 (.num (5 : ℝ))) 1 (emInit (List.replicate 5 (.num 5)) 1) =
       ⟨[.num 5], [.num 0], [.num gmmr], .nan, false⟩ ∧
     simpleGMM (List.replicate 5 (.num (5 : ℝ))) 1 = ⟨1, [.nan], [.nan], [.nan], false⟩) :=
  ⟨by decide, C3_constant_data_amended 5 5 (by decide)⟩

/-- C4 as stated is false on the code: at the dataset `[5,5,5,5,5]` with
k = 1 the returned weights are `[NaN]`, whose sum is NaN — not a real number
within `1e-6` of `1.0`. -/
theorem C4_weights_sum_counterexample :
    ¬ ∃ s : ℝ, jsum (simpleGMM (List.replicate 5 (.num 5)) 1).weights = .num s ∧
      |s - 1| ≤ 1e-6 := by
  rw [simpleGMM_const 5 5 (by norm_num)]
  rintro ⟨s, hs, _⟩
  have h1 : jsum [JSNum.nan] = JSNum.nan := by
    rw [jsum_cons, jsum_nil, jadd_nan_left]
  rw [show (⟨1, [.nan], [.nan], [.nan], false⟩ : MixtureModel).weights = [JSNum.nan] from rfl,
    h1] at hs
  exact absurd hs (by simp)

/-- The real value of the Gaussian density
`(1/(sd*sqrt(2*PI))) * exp(-(x-m)^2 / (2*sd^2))` for a positive standard
deviation, used to state what the embedded `gaussianPDF` computes on
non-degenerate finite inputs. -/
noncomputable def pdfVal (x m sd : ℝ) : ℝ :=
  1 / (sd * Real.sqrt (2 * Real.pi)) * Real.exp (-((x - m) * (x - m)) / (2 * (sd * sd)))

theorem gaussianPDF_eval (x m : ℝ) {sd : ℝ} (hsd : 0 < sd) :
    gaussianPDF (.num x) (.num m) (.num sd) = .num (pdfVal x m sd) := by
  have h2pi : (0 : ℝ) ≤ 2 * Real.pi := by positivity
  have hcoef : sd * Real.sqrt (2 * Real.pi) ≠ 0 :=
    mul_ne_zero hsd.ne' (Real.sqrt_pos.2 (by positivity)).ne'
  have hden : (2 : ℝ) * (sd * sd) ≠ 0 := by positivity
  simp only [gaussianPDF, jmul_num, jsqrt_num_of_nonneg h2pi, jsub_num, jsq_num,
    jneg_num, jdiv_num_of_ne 1 hcoef, jdiv_num_of_ne _ hden, jexp_num, pdfVal, one_div]

theorem pdfVal_pos (x m : ℝ) {sd : ℝ} (hsd : 0 < sd) : 0 < pdfVal x m sd := by
  unfold pdfVal
  have h1 : 0 < sd * Real.sqrt (2 * Real.pi) :=
    mul_pos hsd (Real.sqrt_pos.2 (by positivity))
  positivity

/-- The unnormalized responsibility row sum
`sum over j of weights[j] * gaussianPDF(x; means[j], sqrt(variances[j]))`,
as a real number. -/
noncomputable def rowSumVal (k : Nat) (ms vs ws : List ℝ) (x : ℝ) : ℝ :=
  ((List.range k).map (fun j =>
    ws.getD j 0 * pdfVal x (ms.getD j 0) (Real.sqrt (vs.getD j 0)))).sum

/-- The normalized responsibility of component `j` at sample `x`, as a real
number. -/
noncomputable def respVal (k : Nat) (ms vs ws : List ℝ) (j : Nat) (x : ℝ) : ℝ :=
  ws.getD j 0 * pdfVal x (ms.getD j 0) (Real.sqrt (vs.getD j 0)) /
    (rowSumVal k ms vs ws x + 1e-10)

theorem getD_map_num (l : List ℝ) {j : Nat} (h : j < l.length) (d : JSNum) :
    (l.map JSNum.num).getD j d = .num (l.getD j 0) := by
  rw [List.getD_eq_getElem _ _ (by simpa using h), List.getD_eq_getElem _ _ h]
  simp

theorem getD_map_range {α : Type} (f : Nat → α) {j k : Nat} (h : j < k) (d : α) :
    ((List.range k).map f).getD j d = f j := by
  rw [List.getD_eq_getElem _ _ (by simpa using h)]
  simp

theorem eRow_eval (k : Nat) (ms vs ws : List ℝ) (x : ℝ)
    (hms : ms.length = k) (hvl : vs.length = k) (hwl : ws.length = k)
    (hvs : ∀ y ∈ vs, 0 < y) :
    eRow k (ms.map .num) (vs.map .num) (ws.map .num) (.num x) =
      (List.range k).map (fun j =>
        .num (ws.getD j 0 * pdfVal x (ms.getD j 0) (Real.sqrt (vs.getD j 0)))) := by
  unfold eRow
  apply List.map_congr_left
  intro j hj
  have hjk : j < k := List.mem_range.1 hj
  have hv0 : 0 < vs.getD j 0 := by
    have hjl : j < vs.length := by omega
    rw [List.getD_eq_getElem _ _ hjl]
    exact hvs _ (List.getElem_mem hjl)
  rw [getD_map_num ms (by omega) .nan, getD_map_num vs (by omega) .nan,
    getD_map_num ws (by omega) .nan,
    jsqrt_num_of_nonneg hv0.le, gaussianPDF_eval x _ (Real.sqrt_pos.2 hv0), jmul_num]

theorem list_sum_map_zero {β : Type} (l : List β) : (l.map (fun _ => (0 : ℝ))).sum = 0 := by
  induction l with
  | nil => simp
  | cons a t ih => simp [ih]

theorem list_sum_map_add {α : Type} (l : List α) (f g : α → ℝ) :
    (l.map (fun x => f x + g x)).sum = (l.map f).sum + (l.map g).sum := by
  induction l with
  | nil => simp
  | cons a t ih =>
      simp only [List.map_cons, List.sum_cons, ih]
      ring

theorem list_sum_map_div {α : Type} (l : List α) (f : α → ℝ) (c : ℝ) :
    (l.map (fun x => f x / c)).sum = (l.map f).sum / c := by
  induction l with
  | nil => simp
  | cons a t ih =>
      simp only [List.map_cons, List.sum_cons, ih]
      ring

theorem list_sum_map_const {α : Type} (l : List α) (c : ℝ) :
    (l.map (fun _ => c)).sum = l.length * c := by
  induction l with
  | nil => simp
  | cons a t ih =>
      simp only [List.map_cons, List.sum_cons, ih, List.length_cons]
      push_cast
      ring

theorem list_sum_swap {α β : Type} (l1 : List α) (l2 : List β) (f : α → β → ℝ) :
    (l1.map (fun a => (l2.map (fun b => f a b)).sum)).sum =
      (l2.map (fun b => (l1.map (fun a => f a b)).sum)).sum := by
  induction l1 with
  | nil => simp [list_sum_map_zero]
  | cons a t ih =>
      simp only [List.map_cons, List.sum_cons, ih]
      rw [← list_sum_map_add]

theorem rowSumVal_nonneg_add (k : Nat) (ms vs ws : List ℝ) (x : ℝ)
    (h : 1e-4 ≤ rowSumVal k ms vs ws x) : rowSumVal k ms vs ws x + 1e-10 ≠ 0 := by
  have : (0 : ℝ) < rowSumVal k ms vs ws x + 1e-10 := by nlinarith
  exact this.ne'

theorem eStep_eval (ds ms vs ws : List ℝ) (k : Nat)
    (hms : ms.length = k) (hvl : vs.length = k) (hwl : ws.length = k)
    (hvs : ∀ y ∈ vs, 0 < y)
    (hrow : ∀ x ∈ ds, 1e-4 ≤ rowSumVal k ms vs ws x) :
    eStep (ds.map .num) k (ms.map .num) (vs.map .num) (ws.map .num) =
      ds.map (fun x => (List.range k).map (fun j => JSNum.num (respVal k ms vs ws j x))) := by
  unfold eStep
  rw [List.map_map]
  apply List.map_congr_left
  intro x hx
  simp only [Function.comp]
  rw [eRow_eval k ms vs ws x hms hvl hwl hvs, jsum_map_num, List.map_map]
  apply List.map_congr_left
  intro j hj
  simp only [Function.comp, jadd_num]
  have hb : ((List.range k).map fun j =>
      ws.getD j 0 * pdfVal x (ms.getD j 0) (Real.sqrt (vs.getD j 0))).sum + 1e-10 ≠ 0 :=
    rowSumVal_nonneg_add k ms vs ws x (hrow x hx)
  rw [jdiv_num_of_ne _ hb]
  simp only [respVal, rowSumVal]

theorem mStepWeights_eval (ds ms vs ws : List ℝ) (k : Nat) (hne : ds ≠ []) :
    mStepWeights ds.length k
      (ds.map (fun x => (List.range k).map (fun j => JSNum.num (respVal k ms vs ws j x)))) =
      (List.range k).map (fun j =>
        JSNum.num ((ds.map (respVal k ms vs ws j)).sum / ds.length)) := by
  have hnne : ((ds.length : ℝ)) ≠ 0 := by
    have : ds.length ≠ 0 := by
      intro hc
      exact hne (List.eq_nil_of_length_eq_zero hc)
    exact_mod_cast this
  unfold mStepWeights mStepNk
  apply List.map_congr_left
  intro j hj
  have hjk : j < k := List.mem_range.1 hj
  rw [foldl_jadd_map, List.map_map]
  have hfun : ((fun r => r.getD j JSNum.nan) ∘
      fun x => (List.range k).map (fun j' => JSNum.num (respVal k ms vs ws j' x))) =
      fun x => JSNum.num (respVal k ms vs ws j x) := by
    funext x
    exact getD_map_range _ hjk _
  rw [hfun, jsum_map_num, jadd_zero_left, jdiv_num_of_ne _ hnne]

/-- C4 amended: the claim's 1e-6 bound fails in degenerate cases (see the
counterexample, where the weights are NaN).  What holds is: for finite data
and parameters with positive variances, the weights produced by one EM
M-step sum exactly to `(1/n) * sum over samples of s_i/(s_i + 1e-10)` where
`s_i` is the sample's unnormalized responsibility row sum — so the epsilon
in the row normalization makes the sum fall short of 1 — and this sum is
within `1e-6` of `1.0` provided every row sum `s_i` is at least `1e-4`. -/
theorem C4_weights_sum_amended (ds ms vs ws : List ℝ) (k : Nat)
    (hne : ds ≠ []) (hms : ms.length = k) (hvl : vs.length = k) (hwl : ws.length = k)
    (hvs : ∀ y ∈ vs, 0 < y)
    (hrow : ∀ x ∈ ds, 1e-4 ≤ rowSumVal k ms vs ws x) :
    ∃ S : ℝ,
      jsum (mStepWeights ds.length k
        (eStep (ds.map .num) k (ms.map .num) (vs.map .num) (ws.map .num))) = .num S ∧
      S = (ds.map (fun x =>
            rowSumVal k ms vs ws x / (rowSumVal k ms vs ws x + 1e-10))).sum / ds.length ∧
      |S - 1| ≤ 1e-6 := by
  have hnpos : (0 : ℝ) < ds.length := by
    have : 0 < ds.length := List.length_pos.2 hne
    exact_mod_cast this
  rw [eStep_eval ds ms vs ws k hms hvl hwl hvs hrow,
    mStepWeights_eval ds ms vs ws k hne, jsum_map_num]
  have hsum : ((List.range k).map (fun j =>
      (ds.map (respVal k ms vs ws j)).sum / (ds.length : ℝ))).sum =
      (ds.map (fun x =>
        rowSumVal k ms vs ws x / (rowSumVal k ms vs ws x + 1e-10))).sum / ds.length := by
    rw [list_sum_map_div]
    congr 1
    rw [list_sum_swap (List.range k) ds (fun j x => respVal k ms vs ws j x)]
    apply congrArg
    apply List.map_congr_left
    intro x hx
    simp only [respVal]
    rw [list_sum_map_div]
    rfl
  refine ⟨_, rfl, hsum, ?_⟩
  rw [hsum]
  have hub : (ds.map (fun x =>
      rowSumVal k ms vs ws x / (rowSumVal k ms vs ws x + 1e-10))).sum ≤ ds.length := by
    have h1 : (ds.map (fun x =>
        rowSumVal k ms vs ws x / (rowSumVal k ms vs ws x + 1e-10))).sum ≤
        (ds.map (fun _ => (1 : ℝ))).sum := by
      apply List.sum_le_sum
      intro x hx
      have hS := hrow x hx
      have hpos : (0 : ℝ) < rowSumVal k ms vs ws x + 1e-10 := by nlinarith
      rw [div_le_one hpos]
      nlinarith
    rw [list_sum_map_const] at h1
    linarith
  have hlb : (ds.length : ℝ) * (1 - 1e-6) ≤ (ds.map (fun x =>
      rowSumVal k ms vs ws x / (rowSumVal k ms vs ws x + 1e-10))).sum := by
    have h1 : (ds.map (fun _ => (1 : ℝ) - 1e-6)).sum ≤ (ds.map (fun x =>
        rowSumVal k ms vs ws x / (rowSumVal k ms vs ws x + 1e-10))).sum := by
      apply List.sum_le_sum
      intro x hx
      have hS := hrow x hx
      have hpos : (0 : ℝ) < rowSumVal k ms vs ws x + 1e-10 := by nlinarith
      rw [le_div_iff hpos]
      nlinarith
    rw [list_sum_map_const] at h1
    linarith
  rw [abs_le]
  have h2 : (1 : ℝ) - 1e-6 ≤ (ds.map (fun x =>
      rowSumVal k ms vs ws x / (rowSumVal k ms vs ws x + 1e-10))).sum / ds.length := by
    rw [le_div_iff₀ hnpos]
    nlinarith
  have h3 : (ds.map (fun x =>
      rowSumVal k ms vs ws x / (rowSumVal k ms vs ws x + 1e-10))).sum / ds.length ≤ 1 := by
    rw [div_le_iff₀ hnpos]
    nlinarith
  constructor
  · linarith
  · linarith

theorem gmmc_lower : (1e-4 : ℝ) ≤ gmmc := by
  have hpos : 0 < Real.sqrt (2 * Real.pi) := Real.sqrt_pos.2 (by positivity)
  have h9 : Real.sqrt (2 * Real.pi) ≤ 3 := by
    have h1 : (2 : ℝ) * Real.pi ≤ 9 := by nlinarith [Real.pi_le_four]
    calc Real.sqrt (2 * Real.pi) ≤ Real.sqrt 9 := Real.sqrt_le_sqrt h1
      _ = 3 := by
          rw [show (9 : ℝ) = 3 ^ 2 by norm_num]
          exact Real.sqrt_sq (by norm_num)
  have hinv : (3 : ℝ)⁻¹ ≤ (Real.sqrt (2 * Real.pi))⁻¹ := by
    apply inv_le_inv_of_le hpos h9
  have h4 : (1e-4 : ℝ) ≤ 3⁻¹ := by norm_num
  unfold gmmc
  linarith

theorem rowSumVal_witness : rowSumVal 1 [0] [1] [1] 0 = gmmc := by
  unfold rowSumVal pdfVal gmmc
  simp [range_one_eq, Real.sqrt_one, Real.exp_zero]

/-- Witness for the amended C4 at the dataset `[0]` with one component seeded
at mean `0`, variance `1`, weight `1`: every hypothesis holds and the
summed M-step weights are within `1e-6` of `1.0`. -/
theorem C4_weights_sum_amended_witness :
    (([0] : List ℝ) ≠ [] ∧ ([0] : List ℝ).length = 1 ∧ ([1] : List ℝ).length = 1 ∧
     (∀ y ∈ ([1] : List ℝ), 0 < y) ∧
     (∀ x ∈ ([0] : List ℝ), 1e-4 ≤ rowSumVal 1 [0] [1] [1] x)) ∧
    ∃ S : ℝ,
      jsum (mStepWeights ([0] : List ℝ).length 1
        (eStep (([0] : List ℝ).map .num) 1 (([0] : List ℝ).map .num)
          (([1] : List ℝ).map .num) (([1] : List ℝ).map .num))) = .num S ∧
      S = (([0] : List ℝ).map (fun x =>
            rowSumVal 1 [0] [1] [1] x / (rowSumVal 1 [0] [1] [1] x + 1e-10))).sum /
              ([0] : List ℝ).length ∧
      |S - 1| ≤ 1e-6 := by
  have hne : ([0] : List ℝ) ≠ [] := by simp
  have hms : ([0] : List ℝ).length = 1 := rfl
  have hvl : ([1] : List ℝ).length = 1 := rfl
  have hvs : ∀ y ∈ ([1] : List ℝ), 0 < y := by
    intro y hy
    rw [List.mem_singleton] at hy
    rw [hy]
    exact one_pos
  have hrow : ∀ x ∈ ([0] : List ℝ), 1e-4 ≤ rowSumVal 1 [0] [1] [1] x := by
    intro x hx
    rw [List.mem_singleton] at hx
    rw [hx, rowSumVal_witness]
    exact gmmc_lower
  exact ⟨⟨hne, hms, hvl, hvs, hrow⟩,
    C4_weights_sum_amended [0] [0] [1] [1] 1 hne hms hvl hvl hvs hrow⟩

/-- Entry pushed onto `upperCI` at index `i`. -/
noncomputable def cumulUpper (data : List JSNum) (i : Nat) : Option JSNum :=
  if i < 2 then none
  else if jisNaN (cumulMV data i).2 = false then
    some (jadd (cumulMV data i).1 (jmul (.num 1.96) (jsqrt (cumulMV data i).2)))
  else none

/-- Entry pushed onto `lowerCI` at index `i`. -/
noncomputable def cumulLower (data : List JSNum) (i : Nat) : Option JSNum :=
  if i < 2 then none
  else if jisNaN (cumulMV data i).2 = false then
    some (jsub (cumulMV data i).1 (jmul (.num 1.96) (jsqrt (cumulMV data i).2)))
  else none

/-- Entry pushed onto `meanLine` at index `i`. -/
noncomputable def cumulMean (data : List JSNum) (i : Nat) : Option JSNum :=
  if i < 2 then none
  else if jisNaN (cumulMV data i).2 = false then some (cumulMV data i).1
  else none

theorem foldl_triple_append {α : Type} (F G H : Nat → Option α) (l : List Nat)
    (a b c : List (Option α)) :
    l.foldl (fun acc i => (acc.1 ++ [F i], acc.2.1 ++ [G i], acc.2.2 ++ [H i])) (a, b, c) =
      (a ++ l.map F, b ++ l.map G, c ++ l.map H) := by
  induction l generalizing a b c with
  | nil => simp
  | cons x t ih =>
      simp only [List.foldl_cons, List.map_cons, ih, List.append_assoc,
        List.singleton_append]

theorem cumulStep_eq (data : List JSNum) :
    cumulStep data = (fun acc i =>
      (acc.1 ++ [cumulUpper data i], acc.2.1 ++ [cumulLower data i],
       acc.2.2 ++ [cumulMean data i])) := by
  funext acc i
  unfold cumulStep cumulUpper cumulLower cumulMean
  by_cases h2 : i < 2
  · simp [h2]
  · simp only [h2, if_false]
    by_cases hn : jisNaN (cumulMV data i).2 = false
    · simp [hn]
    · simp [hn]

theorem cumulLists_eq (data : List JSNum) :
    cumulLists data = ((List.range data.length).map (cumulUpper data),
      (List.range data.length).map (cumulLower data),
      (List.range data.length).map (cumulMean data)) := by
  unfold cumulLists
  rw [cumulStep_eq, foldl_triple_append]
  simp

/-- Plain sample mean of the prefix `data[0..i]`, as a real number. -/
noncomputable def cMean (ds : List ℝ) (i : Nat) : ℝ :=
  (ds.take (i + 1)).sum / (ds.take (i + 1)).length

/-- Bessel-corrected sample variance of the prefix `data[0..i]`, as a real
number. -/
noncomputable def cVar (ds : List ℝ) (i : Nat) : ℝ :=
  ((ds.take (i + 1)).map (fun x => (x - cMean ds i) * (x - cMean ds i))).sum /
    (((ds.take (i + 1)).length : ℝ) - 1)

theorem take_map_num (ds : List ℝ) (n : Nat) :
    (ds.map JSNum.num).take n = (ds.take n).map JSNum.num := by
  rw [List.map_take]

theorem cumulMV_small (ds : List ℝ) (i : Nat) (hi : i < ds.length) (h2 : 2 ≤ i)
    (h3 : i ≤ 3) :
    cumulMV (ds.map .num) i = (.num (cMean ds i), .num (cVar ds i)) := by
  have hlen : (ds.take (i + 1)).length = i + 1 := by
    rw [List.length_take]
    omega
  have hnz : (((ds.take (i + 1)).length : ℝ)) ≠ 0 := by
    rw [hlen]
    exact_mod_cast (by omega : i + 1 ≠ 0)
  have hm1 : (((ds.take (i + 1)).length : ℝ)) - 1 ≠ 0 := by
    rw [hlen]
    push_cast
    intro hc
    have : (i : ℝ) = 0 := by linarith
    have : i = 0 := by exact_mod_cast this
    omega
  unfold cumulMV
  rw [take_map_num]
  rw [if_pos (by rw [List.length_map, hlen]; omega)]
  simp only [jsum_map_num_id, List.length_map]
  rw [jdiv_num_of_ne _ hnz]
  rw [show (ds.take (i + 1)).sum / ((ds.take (i + 1)).length : ℝ) = cMean ds i from rfl]
  rw [foldl_sq_sum]
  rw [jdiv_num_of_ne _ hm1]
  rfl

theorem cVar_nonneg (ds : List ℝ) (i : Nat) (hi : i < ds.length) (h2 : 2 ≤ i) :
    0 ≤ cVar ds i := by
  have hlen : (ds.take (i + 1)).length = i + 1 := by
    rw [List.length_take]
    omega
  unfold cVar
  apply div_nonneg
  · apply List.sum_nonneg
    intro x hx
    obtain ⟨y, hy, rfl⟩ := List.mem_map.1 hx
    exact mul_self_nonneg _
  · rw [hlen]
    push_cast
    linarith

theorem cumulMV_big (data : List JSNum) (i : Nat) (hi : i < data.length) (h4 : 4 ≤ i) :
    cumulMV data i =
      (jget (selectScored (data.take (i + 1))).means
         (jsIndexOf (selectScored (data.take (i + 1))).weights
           (listMax (selectScored (data.take (i + 1))).weights)),
       jget (selectScored (data.take (i + 1))).variances
         (jsIndexOf (selectScored (data.take (i + 1))).weights
           (listMax (selectScored (data.take (i + 1))).weights))) := by
  have hlen : (data.take (i + 1)).length = i + 1 := by
    rw [List.length_take]
    omega
  unfold cumulMV
  rw [if_neg (by rw [hlen]; omega)]

theorem get?_map_range {α : Type} (f : Nat → α) {i n : Nat} (h : i < n) :
    ((List.range n).map f).get? i = some (f i) := by
  rw [List.get?_map, List.get?_range h]
  rfl

/-- C2: the cumulative fit of `plotTimeSeries` produces one entry per index
of the dataset in each of the three arrays; for `i < 2` the point is absent;
for `i` in `{2, 3}` the point is `(mean, mean - 1.96*sqrt(var),
mean + 1.96*sqrt(var))` with the plain mean and Bessel-corrected variance of
`data[0..i]`, computed directly; for `i >= 4` the full Model Selector runs
on `data[0..i]` and the point uses the component at
`weights.indexOf(max(weights))` with the same band; whenever the resulting
variance is NaN the point is absent even though `i >= 2`. -/
theorem C2_cumulative_fit (ds : List ℝ) :
    (cumulLists (ds.map JSNum.num)).1.length = ds.length ∧
    (cumulLists (ds.map JSNum.num)).2.1.length = ds.length ∧
    (cumulLists (ds.map JSNum.num)).2.2.length = ds.length ∧
    ∀ i, i < ds.length →
      ((i < 2 →
        (cumulLists (ds.map JSNum.num)).1.get? i = some none ∧
        (cumulLists (ds.map JSNum.num)).2.1.get? i = some none ∧
        (cumulLists (ds.map JSNum.num)).2.2.get? i = some none) ∧
      (2 ≤ i → i ≤ 3 →
        (cumulLists (ds.map JSNum.num)).2.2.get? i = some (some (.num (cMean ds i))) ∧
        (cumulLists (ds.map JSNum.num)).1.get? i =
          some (some (.num (cMean ds i + 1.96 * Real.sqrt (cVar ds i)))) ∧
        (cumulLists (ds.map JSNum.num)).2.1.get? i =
          some (some (.num (cMean ds i - 1.96 * Real.sqrt (cVar ds i))))) ∧
      (4 ≤ i →
        cumulMV (ds.map JSNum.num) i =
          (jget (selectScored ((ds.map JSNum.num).take (i + 1))).means
             (jsIndexOf (selectScored ((ds.map JSNum.num).take (i + 1))).weights
               (listMax (selectScored ((ds.map JSNum.num).take (i + 1))).weights)),
           jget (selectScored ((ds.map JSNum.num).take (i + 1))).variances
             (jsIndexOf (selectScored ((ds.map JSNum.num).take (i + 1))).weights
               (listMax (selectScored ((ds.map JSNum.num).take (i + 1))).weights))) ∧
        (jisNaN (cumulMV (ds.map JSNum.num) i).2 = false →
          (cumulLists (ds.map JSNum.num)).2.2.get? i =
            some (some (cumulMV (ds.map JSNum.num) i).1) ∧
          (cumulLists (ds.map JSNum.num)).1.get? i =
            some (some (jadd (cumulMV (ds.map JSNum.num) i).1
              (jmul (.num 1.96) (jsqrt (cumulMV (ds.map JSNum.num) i).2)))) ∧
          (cumulLists (ds.map JSNum.num)).2.1.get? i =
            some (some (jsub (cumulMV (ds.map JSNum.num) i).1
              (jmul (.num 1.96) (jsqrt (cumulMV (ds.map JSNum.num) i).2))))) ∧
        (jisNaN (cumulMV (ds.map JSNum.num) i).2 = true →
          (cumulLists (ds.map JSNum.num)).1.get? i = some none ∧
          (cumulLists (ds.map JSNum.num)).2.1.get? i = some none ∧
          (cumulLists (ds.map JSNum.num)).2.2.get? i = some none))) := by
  rw [cumulLists_eq]
  refine ⟨by simp, by simp, by simp, ?_⟩
  intro i hi
  have hi' : i < (ds.map JSNum.num).length := by simpa using hi
  refine ⟨?_, ?_, ?_⟩
  · intro h2
    refine ⟨?_, ?_, ?_⟩ <;>
      simp only [get?_map_range _ hi'] <;>
      simp [cumulUpper, cumulLower, cumulMean, h2]
  · intro h2 h3
    have hmv := cumulMV_small ds i hi h2 h3
    have hvn := cVar_nonneg ds i hi h2
    have hlt : ¬ i < 2 := by omega
    refine ⟨?_, ?_, ?_⟩
    · simp only [get?_map_range _ hi', cumulMean, hmv, if_neg hlt]
      simp
    · simp only [get?_map_range _ hi', cumulUpper, hmv, if_neg hlt]
      simp [jsqrt_num_of_nonneg hvn]
    · simp only [get?_map_range _ hi', cumulLower, hmv, if_neg hlt]
      simp [jsqrt_num_of_nonneg hvn]
  · intro h4
    have hlt : ¬ i < 2 := by omega
    refine ⟨cumulMV_big (ds.map JSNum.num) i hi' h4, ?_, ?_⟩
    · intro hnf
      refine ⟨?_, ?_, ?_⟩ <;>
        simp only [get?_map_range _ hi'] <;>
        simp [cumulUpper, cumulLower, cumulMean, hlt, hnf]
    · intro hnt
      refine ⟨?_, ?_, ?_⟩ <;>
        simp only [get?_map_range _ hi'] <;>
        simp [cumulUpper, cumulLower, cumulMean, hlt, hnt]

/-- Witness for C2 at the length-3 dataset `[1, 2, 3]` and index 2: the
point is present and equals the plain-mean / sample-variance formulas. -/
theorem C2_cumulative_fit_witness :
    (cumulLists (([1, 2, 3] : List ℝ).map JSNum.num)).2.2.get? 2 =
      some (some (.num (cMean [1, 2, 3] 2))) ∧
    (cumulLists (([1, 2, 3] : List ℝ).map JSNum.num)).1.get? 2 =
      some (some (.num (cMean [1, 2, 3] 2 + 1.96 * Real.sqrt (cVar [1, 2, 3] 2)))) ∧
    (cumulLists (([1, 2, 3] : List ℝ).map JSNum.num)).2.1.get? 2 =
      some (some (.num (cMean [1, 2, 3] 2 - 1.96 * Real.sqrt (cVar [1, 2, 3] 2)))) :=
  ((C2_cumulative_fit [1, 2, 3]).2.2.2 2 (by simp)).2.1 (by simp) (by simp)
